import Mathlib

/-!
Verification development for the cairo-vm-go execution core: the segmented
single-assignment memory, the per-step virtual machine transition, the zero
runner (entrypoint initialization, run loops, proof-mode padding, trace
relocation) and the binary trace codec.

Go source files embedded here:
* `pkg/vm/memory` (segments and memory: `Segment.Write`, `Segment.Read`,
  `Segment.Peek`, `Segment.IncreaseSegmentSize`, `Memory.*`),
* `pkg/vm` (the `VirtualMachine` step: operand address resolution,
  `inferOperand`, `computeRes`, `opcodeAssertions`, register updates,
  `relocateTrace`),
* `pkg/runners/zero` (the `ZeroRunner`: `Run`, `InitializeMainEntrypoint`,
  `InitializeEntrypoint`, `RunUntilPc`, `RunFor`, `EncodeTrace`,
  `DecodeTrace`).

Machine integers (`uint64`) are modelled as `Nat` with an explicit `% 2^64`
wherever the Go code performs `uint64` arithmetic that can wrap; Go slices are
modelled as `List` together with an explicit capacity field mirroring
`cap(...)`.  Fallible Go functions returning `error` are modelled as functions
returning an `Except` paired with the mutated state (Go mutates its receivers
in place even on error paths, so the state component is always returned).

The field element type, memory value arithmetic, `safemath` and the
instruction structure are not part of the provided sources; they are modelled
from the specification where needed and marked as such in their doc comments.
-/

namespace CairoVM

/-- The STARK field prime p = 2^251 + 17·2^192 + 1 (spec §3). -/
def P : Nat := 2 ^ 251 + 17 * 2 ^ 192 + 1

/-- Modelled from the spec: a field element (`Felt`) is an element of the
prime field F_p. -/
abbrev Felt := ZMod P

/-- 2^64, the modulus of Go's `uint64` arithmetic. -/
def U64 : Nat := 2 ^ 64

/-- Errors produced by the memory and virtual-machine layers.  The Go code
uses untyped wrapped errors; the constructors below correspond to the
distinct error creation sites of the memory and vm packages. -/
inductive VmErr where
  /-- `Segment.Write`: "rewriting cell". -/
  | rewriteCell
  /-- `Memory.Write`/`Read`/`Peek`: "unallocated segment at index %d". -/
  | unallocatedSegment (idx : Nat)
  /-- an address was required where a felt was found, or vice versa, or a
  disallowed arithmetic mix of tags was attempted. -/
  | typeMismatch
  /-- `SafeOffset` overflowed (spec: `OffsetOverflow`). -/
  | offsetOverflow
  /-- division by zero during inference or `computeRes`. -/
  | divisionByZero
  /-- `inferOperand`: "dst cell is unknown". -/
  | dstCellUnknown
  /-- a felt that does not fit into a `uint64` was converted. -/
  | feltTooLarge
  /-- the instruction word could not be decoded (spec: `InvalidInstruction`). -/
  | invalidInstruction
deriving DecidableEq

/-- Decidable equality of `Except` results, for concrete evaluation. -/
instance exceptDecEq {e a : Type} [DecidableEq e] [DecidableEq a] :
    DecidableEq (Except e a) := fun x y =>
  match x, y with
  | Except.error u, Except.error v =>
      if h : u = v then isTrue (congrArg Except.error h) else
        isFalse (fun hh => h (Except.error.inj hh))
  | Except.ok u, Except.ok v =>
      if h : u = v then isTrue (congrArg Except.ok h) else
        isFalse (fun hh => h (Except.ok.inj hh))
  | Except.error _, Except.ok _ => isFalse (fun hh => Except.noConfusion hh)
  | Except.ok _, Except.error _ => isFalse (fun hh => Except.noConfusion hh)

/-- A memory address: a pair (segment index, offset), both `uint64` in Go. -/
structure MemoryAddress where
  SegmentIndex : Nat
  Offset : Nat
deriving DecidableEq

/-- `memory.UnknownValue`, the distinguished sentinel address used only as an
error return. -/
def UnknownValue : MemoryAddress := ⟨0, 0⟩

/-- Modelled from the spec: a known memory value is a tagged union of a field
element and a memory address. -/
inductive Mv where
  | felt (v : Felt)
  | address (a : MemoryAddress)
deriving DecidableEq

/-- A Go `MemoryValue` slot: either unknown (`MemoryValue{}`, both payload
pointers nil) or a known tagged value.  A cell is "known" iff it has been
explicitly populated; unwritten cells are distinguishable from a written
zero (spec §3). -/
abbrev MemoryValue := Option Mv

/-- `MemoryValue.Known`: the slot holds an explicitly written value. -/
def MemoryValue.Known (v : MemoryValue) : Bool := v.isSome

/-- `MemoryValue.IsAddress`. -/
def MemoryValue.IsAddress (v : MemoryValue) : Bool :=
  match v with
  | some (Mv.address _) => true
  | _ => false

/-- `MemoryValueFromFieldElement`. -/
def MemoryValueFromFieldElement (v : Felt) : MemoryValue := some (Mv.felt v)

/-- `MemoryValueFromMemoryAddress`. -/
def MemoryValueFromMemoryAddress (a : MemoryAddress) : MemoryValue :=
  some (Mv.address a)

/-- `MemoryValueFromSegmentAndOffset`. -/
def MemoryValueFromSegmentAndOffset (seg off : Nat) : MemoryValue :=
  some (Mv.address ⟨seg, off⟩)

/-- `MemoryValueFromUint`. -/
def MemoryValueFromUint (v : Nat) : MemoryValue := some (Mv.felt (v : Felt))

/-- Modelled from the spec: `EmptyMemoryValueAsFelt` produces the default
felt value a cell is initialized to (Felt(0), known). -/
def EmptyMemoryValueAsFelt : MemoryValue := some (Mv.felt 0)

/-- Modelled from the spec: `EmptyMemoryValueAs` produces a default value
with the requested tag (used as the receiver of `Sub`/`Div`, which overwrite
it according to the operand tags). -/
def EmptyMemoryValueAs (isAddress : Bool) : MemoryValue :=
  if isAddress then some (Mv.address ⟨0, 0⟩) else some (Mv.felt 0)

/-- Modelled from the spec: conversion of a felt to a `uint64`; fails when
the felt does not fit ("res must be a small Felt"). -/
def feltToU64 (v : Felt) : Except VmErr Nat :=
  if v.val < U64 then Except.ok v.val else Except.error VmErr.feltTooLarge

/-- `MemoryValue.ToFieldElement`: fails with a type mismatch unless the value
is a known felt. -/
def MemoryValue.ToFieldElement (v : MemoryValue) : Except VmErr Felt :=
  match v with
  | some (Mv.felt x) => Except.ok x
  | _ => Except.error VmErr.typeMismatch

/-- `MemoryValue.ToMemoryAddress`: fails with a type mismatch unless the
value is a known address. -/
def MemoryValue.ToMemoryAddress (v : MemoryValue) : Except VmErr MemoryAddress :=
  match v with
  | some (Mv.address a) => Except.ok a
  | _ => Except.error VmErr.typeMismatch

/-- `MemoryValue.Uint64`: the value as a `uint64`. -/
def MemoryValue.Uint64 (v : MemoryValue) : Except VmErr Nat :=
  match v with
  | some (Mv.felt x) => feltToU64 x
  | _ => Except.error VmErr.typeMismatch

/-- `MemoryAddress.Add(self, felt)`: adds a felt (which must fit a `uint64`)
to the address offset, wrapping as Go `uint64` addition does. -/
def MemoryAddress.AddFelt (a : MemoryAddress) (v : Felt) :
    Except VmErr MemoryAddress := do
  let v64 ← feltToU64 v
  Except.ok ⟨a.SegmentIndex, (a.Offset + v64) % U64⟩

/-- Modelled from the spec: memory value addition.  Felt+Felt → Felt,
Address±Felt → Address, Address+Address disallowed. -/
def MemoryValue.Add (lhs rhs : MemoryValue) : Except VmErr MemoryValue :=
  match lhs, rhs with
  | some (Mv.felt a), some (Mv.felt b) => Except.ok (some (Mv.felt (a + b)))
  | some (Mv.address a), some (Mv.felt v) => do
      let a' ← a.AddFelt v
      Except.ok (some (Mv.address a'))
  | some (Mv.felt v), some (Mv.address a) => do
      let a' ← a.AddFelt v
      Except.ok (some (Mv.address a'))
  | _, _ => Except.error VmErr.typeMismatch

/-- Modelled from the spec: memory value subtraction.  Felt−Felt → Felt,
Address−Felt → Address, Address−Address → Felt (offset difference);
Felt−Address is disallowed.  Offsets wrap as Go `uint64` arithmetic. -/
def MemoryValue.Sub (lhs rhs : MemoryValue) : Except VmErr MemoryValue :=
  match lhs, rhs with
  | some (Mv.felt a), some (Mv.felt b) => Except.ok (some (Mv.felt (a - b)))
  | some (Mv.address a), some (Mv.felt v) => do
      let v64 ← feltToU64 v
      Except.ok (some (Mv.address ⟨a.SegmentIndex, (a.Offset + U64 - v64) % U64⟩))
  | some (Mv.address a), some (Mv.address b) =>
      Except.ok (some (Mv.felt (((a.Offset % U64 + U64 - b.Offset % U64) % U64 : Nat) : Felt)))
  | _, _ => Except.error VmErr.typeMismatch

/-- Modelled from the spec: memory value multiplication; both operands must
be felts ("Address×Address, Address×Felt ... are disallowed"). -/
def MemoryValue.Mul (lhs rhs : MemoryValue) : Except VmErr MemoryValue :=
  match lhs, rhs with
  | some (Mv.felt a), some (Mv.felt b) => Except.ok (some (Mv.felt (a * b)))
  | _, _ => Except.error VmErr.typeMismatch

/-- Modelled from the spec: memory value division; both operands must be
felts, and dividing by zero fails with `DivisionByZero`. -/
def MemoryValue.Div (lhs rhs : MemoryValue) : Except VmErr MemoryValue :=
  match lhs, rhs with
  | some (Mv.felt a), some (Mv.felt b) =>
      if b = 0 then Except.error VmErr.divisionByZero
      else Except.ok (some (Mv.felt (a * b⁻¹)))
  | _, _ => Except.error VmErr.typeMismatch

/-! ## Segments and memory (`pkg/vm/memory`)

A Go slice `[]MemoryValue` is modelled as the `List` of its elements together
with its capacity `Cap` (Go's `cap`).  The `BuiltinRunner` interface is
represented by the closed set of variants used by the core; the sources only
ever construct segments with `NoBuiltin` (builtin runners for dedicated
segments are external collaborators per spec §1). -/

/-- The builtin hook attached to a segment.  The provided sources construct
segments exclusively with `NoBuiltin`. -/
inductive BuiltinKind where
  | NoBuiltin
deriving DecidableEq

/-- A memory segment: the data slice, the max index where a value was written
(`LastIndex`, an `int` initialized to −1), the slice capacity and the builtin
hook. -/
structure Segment where
  Data : List MemoryValue
  LastIndex : Int
  Cap : Nat
  BuiltinRunner : BuiltinKind
deriving DecidableEq

/-- `EmptySegment`: empty segments have capacity 100 as a default. -/
def EmptySegment : Segment :=
  { Data := [], LastIndex := -1, Cap := 100, BuiltinRunner := BuiltinKind.NoBuiltin }

/-- `EmptySegmentWithLength(length)`: a zeroed (all cells unknown) segment of
the given length, with `LastIndex = length − 1`. -/
def EmptySegmentWithLength (length : Nat) : Segment :=
  { Data := List.replicate length none
    LastIndex := (length : Int) - 1
    Cap := length
    BuiltinRunner := BuiltinKind.NoBuiltin }

/-- `Segment.Len`: the effective size of the segment, i.e. the rightmost
written element index + 1 (`uint64(LastIndex + 1)`). -/
def Segment.Len (s : Segment) : Nat := (s.LastIndex + 1).toNat

/-- `Segment.RealLen`: the physical length of the data slice. -/
def Segment.RealLen (s : Segment) : Nat := s.Data.length

/-- `Segment.IncreaseSegmentSize(newSize)`: grows the slice either by
reslicing up to the existing capacity (when `cap > newSize`) or by allocating
`max(newSize, 2·len)`.  The source panics when the new size is smaller than
the current length; callers only invoke it with `newSize = offset+1 >
RealLen`, so that branch is unreachable and is modelled as the identity. -/
def Segment.IncreaseSegmentSize (s : Segment) (newSize : Nat) : Segment :=
  if s.Data.length > newSize then s
  else if s.Cap > newSize then
    { s with Data := s.Data ++ List.replicate (s.Cap - s.Data.length) none }
  else
    let n := max newSize (s.Data.length * 2)
    { s with Data := s.Data ++ List.replicate (n - s.Data.length) none, Cap := n }

/-- `NoBuiltin.CheckWrite` approves all writes; the sources only construct
segments with `NoBuiltin`. -/
def BuiltinKind.CheckWrite (b : BuiltinKind) (_offset : Nat) (_v : MemoryValue) :
    Except VmErr Unit :=
  match b with
  | BuiltinKind.NoBuiltin => Except.ok ()

/-- `Segment.Write(offset, value)`: grows the slice when the offset is past
the physical length, bumps `LastIndex` when the offset is at or past the
logical length, errors with "rewriting cell" when the cell is known and
holds a different value, and otherwise stores the value and runs the
builtin's `CheckWrite`.  The (possibly mutated) segment is returned alongside
the error, mirroring Go's in-place mutation. -/
def Segment.Write (s : Segment) (offset : Nat) (value : MemoryValue) :
    Except VmErr Unit × Segment :=
  let s := if offset ≥ s.RealLen then s.IncreaseSegmentSize (offset + 1) else s
  let s := if offset ≥ s.Len then { s with LastIndex := (offset : Int) } else s
  let cell := s.Data.getD offset none
  if cell.Known ∧ cell ≠ value then
    (Except.error VmErr.rewriteCell, s)
  else
    let s := { s with Data := s.Data.set offset value }
    (s.BuiltinRunner.CheckWrite offset value, s)

/-- `Segment.Read(offset)`: grows the slice when needed, bumps `LastIndex`
only when the offset is strictly past the logical length (note the strict
comparison, unlike `Write` and `Peek`), and initializes an unknown cell with
the builtin's `InferValue` (for `NoBuiltin`: `EmptyMemoryValueAsFelt`, a
known Felt 0) before returning it. -/
def Segment.Read (s : Segment) (offset : Nat) :
    Except VmErr MemoryValue × Segment :=
  let s := if offset ≥ s.RealLen then s.IncreaseSegmentSize (offset + 1) else s
  let s := if offset > s.Len then { s with LastIndex := (offset : Int) } else s
  let cell := s.Data.getD offset none
  if cell.Known then (Except.ok cell, s)
  else
    let s := { s with Data := s.Data.set offset EmptyMemoryValueAsFelt }
    (Except.ok EmptyMemoryValueAsFelt, s)

/-- `Segment.Peek(offset)`: like `Read` but never invokes builtin inference;
still grows the slice and bumps `LastIndex` (non-strict comparison) as a side
effect. -/
def Segment.Peek (s : Segment) (offset : Nat) : MemoryValue × Segment :=
  let s := if offset ≥ s.RealLen then s.IncreaseSegmentSize (offset + 1) else s
  let s := if offset ≥ s.Len then { s with LastIndex := (offset : Int) } else s
  (s.Data.getD offset none, s)

/-- The whole VM memory divided into segments. -/
structure Memory where
  Segments : List Segment
deriving DecidableEq

/-- `InitializeEmptyMemory`. -/
def InitializeEmptyMemory : Memory := { Segments := [] }

/-- `Memory.AllocateSegment(data)`: create a segment pre-sized to the data
length, write each element, append it and return its index. -/
def Memory.AllocateSegment (m : Memory) (data : List Felt) :
    Except VmErr (Nat × Memory) := do
  let mut newSegment := EmptySegmentWithLength data.length
  for h : i in [0:data.length] do
    let (r, s') := newSegment.Write i (MemoryValueFromFieldElement data[i])
    match r with
    | Except.error e => throw e
    | Except.ok _ => newSegment := s'
  Except.ok (m.Segments.length, { Segments := m.Segments ++ [newSegment] })

/-- `Memory.AllocateEmptySegment`: append an empty segment, return its
index. -/
def Memory.AllocateEmptySegment (m : Memory) : Nat × Memory :=
  (m.Segments.length, { Segments := m.Segments ++ [EmptySegment] })

/-- `Memory.Write(segmentIndex, offset, value)`: errors on an unallocated
segment index, otherwise delegates to the segment. -/
def Memory.Write (m : Memory) (segmentIndex offset : Nat) (value : MemoryValue) :
    Except VmErr Unit × CairoVM.Memory :=
  if segmentIndex ≥ m.Segments.length then
    (Except.error (VmErr.unallocatedSegment segmentIndex), m)
  else
    let (r, s') := (m.Segments.getD segmentIndex EmptySegment).Write offset value
    (r, { Segments := m.Segments.set segmentIndex s' })

/-- `Memory.WriteToAddress`. -/
def Memory.WriteToAddress (m : Memory) (a : MemoryAddress) (value : MemoryValue) :
    Except VmErr Unit × CairoVM.Memory :=
  m.Write a.SegmentIndex a.Offset value

/-- `Memory.Read(segmentIndex, offset)`. -/
def Memory.Read (m : Memory) (segmentIndex offset : Nat) :
    Except VmErr MemoryValue × CairoVM.Memory :=
  if segmentIndex ≥ m.Segments.length then
    (Except.error (VmErr.unallocatedSegment segmentIndex), m)
  else
    let (r, s') := (m.Segments.getD segmentIndex EmptySegment).Read offset
    (r, { Segments := m.Segments.set segmentIndex s' })

/-- `Memory.ReadFromAddress`. -/
def Memory.ReadFromAddress (m : Memory) (a : MemoryAddress) :
    Except VmErr MemoryValue × CairoVM.Memory :=
  m.Read a.SegmentIndex a.Offset

/-- `Memory.Peek(segmentIndex, offset)`. -/
def Memory.Peek (m : Memory) (segmentIndex offset : Nat) :
    Except VmErr MemoryValue × CairoVM.Memory :=
  if segmentIndex ≥ m.Segments.length then
    (Except.error (VmErr.unallocatedSegment segmentIndex), m)
  else
    let (v, s') := (m.Segments.getD segmentIndex EmptySegment).Peek offset
    (Except.ok v, { Segments := m.Segments.set segmentIndex s' })

/-- `Memory.PeekFromAddress`. -/
def Memory.PeekFromAddress (m : Memory) (a : MemoryAddress) :
    Except VmErr MemoryValue × CairoVM.Memory :=
  m.Peek a.SegmentIndex a.Offset

/-! ## The virtual machine step (`pkg/vm`)

The `Instruction` structure and its decoder live outside the provided
sources; the structure below is modelled from the spec (§4.2).  The decoder
itself is not needed by any claim and the development is parametric in it
(`decode`); `Instruction.Size` follows the spec: size 2 iff the op1 source is
an immediate. -/

/-- segment indices: 0 = program segment, 1 = execution segment. -/
def ProgramSegment : Nat := 0

/-- the execution segment index. -/
def ExecutionSegment : Nat := 1

/-- Modelled from the spec: a register selector flag. -/
inductive Register where
  | Ap
  | Fp
deriving DecidableEq

/-- Modelled from the spec: the op1 source one-hot group. -/
inductive Op1Src where
  | Imm
  | ApPlusOffOp1
  | FpPlusOffOp1
  | Op0
deriving DecidableEq

/-- Modelled from the spec: the res-logic one-hot group. -/
inductive ResLogic where
  | Op1
  | AddOperands
  | MulOperands
  | Unconstrained
deriving DecidableEq

/-- Modelled from the spec: the pc-update one-hot group. -/
inductive PcUpdate where
  | NextInstr
  | Jump
  | JumpRel
  | Jnz
deriving DecidableEq

/-- Modelled from the spec: the ap-update one-hot group. -/
inductive ApUpdate where
  | SameAp
  | AddImm
  | Add1
  | Add2
deriving DecidableEq

/-- Modelled from the spec: the opcode one-hot group. -/
inductive Opcode where
  | Nop
  | Call
  | Ret
  | AssertEq
deriving DecidableEq

/-- Modelled from the spec: a decoded instruction with 16-bit biased signed
offsets and the decoded one-hot flag groups. -/
structure Instruction where
  OffDest : Int
  OffOp0 : Int
  OffOp1 : Int
  DstRegister : Register
  Op0Register : Register
  Op1Source : Op1Src
  Res : ResLogic
  PcUpdate : PcUpdate
  ApUpdate : ApUpdate
  Opcode : Opcode
deriving DecidableEq

/-- Instruction size is 2 iff the op1 source is an immediate (spec §4.2). -/
def Instruction.Size (i : Instruction) : Nat :=
  if i.Op1Source = Op1Src.Imm then 2 else 1

/-- Modelled from the spec: safemath's overflow-checked signed offset
addition (`SafeOffset`): fails when `x + off` leaves the `uint64` range. -/
def SafeOffset (x : Nat) (off : Int) : Option Nat :=
  let r := (x : Int) + off
  if 0 ≤ r ∧ r < (U64 : Int) then some r.toNat else none

/-- The current execution context of the vm: `(pc, fp, ap)`. -/
structure Context where
  Pc : MemoryAddress
  Fp : Nat
  Ap : Nat
deriving DecidableEq

/-- `Context.AddressAp`. -/
def Context.AddressAp (ctx : Context) : MemoryAddress :=
  ⟨ExecutionSegment, ctx.Ap⟩

/-- `Context.AddressFp`. -/
def Context.AddressFp (ctx : Context) : MemoryAddress :=
  ⟨ExecutionSegment, ctx.Fp⟩

/-- `Context.AddressPc`. -/
def Context.AddressPc (ctx : Context) : MemoryAddress :=
  ⟨ctx.Pc.SegmentIndex, ctx.Pc.Offset⟩

/-- A relocated trace entry (`vm.Trace`): `pc`, `fp`, `ap` as `uint64`
values in the single linear address space. -/
structure Trace where
  Pc : Nat
  Fp : Nat
  Ap : Nat
deriving DecidableEq

/-- `Context.Relocate(executionSegmentOffset)`: relocates pc, ap and fp to
their real address values: `pc.offset + 1`, `ap + offset`, `fp + offset`
(`uint64` arithmetic). -/
def Context.Relocate (ctx : Context) (executionSegmentOffset : Nat) : Trace :=
  { Pc := (ctx.Pc.Offset + 1) % U64
    Ap := (ctx.Ap + executionSegmentOffset) % U64
    Fp := (ctx.Fp + executionSegmentOffset) % U64 }

/-- `VirtualMachineConfig`. -/
structure VirtualMachineConfig where
  ProofMode : Bool
deriving DecidableEq

/-- The virtual machine state: execution context, memory, step counter and
the recorded trace.  The per-pc instruction cache of the source is omitted:
the spec (§9) states it is an optimization and not a semantic requirement,
and re-decoding is deterministic because memory cells are single-assignment. -/
structure VirtualMachine where
  Context : CairoVM.Context
  Memory : CairoVM.Memory
  Step : Nat
  Trace : List CairoVM.Context
  config : VirtualMachineConfig
deriving DecidableEq

/-- `VirtualMachine.getDstAddr`: `(ExecutionSegment, reg + off_dst)` with the
register selected by the flag; overflow of the signed addition fails. -/
def VirtualMachine.getDstAddr (vm : VirtualMachine) (i : Instruction) :
    Except VmErr MemoryAddress :=
  let dstRegister := match i.DstRegister with
    | Register.Ap => vm.Context.Ap
    | Register.Fp => vm.Context.Fp
  match SafeOffset dstRegister i.OffDest with
  | none => Except.error VmErr.offsetOverflow
  | some addr => Except.ok ⟨ExecutionSegment, addr⟩

/-- `VirtualMachine.getOp0Addr`: analogous to `getDstAddr` with the op0
register flag and offset. -/
def VirtualMachine.getOp0Addr (vm : VirtualMachine) (i : Instruction) :
    Except VmErr MemoryAddress :=
  let op0Register := match i.Op0Register with
    | Register.Ap => vm.Context.Ap
    | Register.Fp => vm.Context.Fp
  match SafeOffset op0Register i.OffOp0 with
  | none => Except.error VmErr.offsetOverflow
  | some addr => Except.ok ⟨ExecutionSegment, addr⟩

/-- `VirtualMachine.getOp1Addr`: the base address per the op1 source (for
`Op0` the memory value at op0's address, which must be an address, is read —
mutating memory), then the signed op1 offset is added. -/
def VirtualMachine.getOp1Addr (vm : VirtualMachine) (i : Instruction)
    (op0Addr : MemoryAddress) : Except VmErr MemoryAddress × CairoVM.Memory :=
  let base : Except VmErr MemoryAddress × CairoVM.Memory :=
    match i.Op1Source with
    | Op1Src.Op0 =>
        match vm.Memory.ReadFromAddress op0Addr with
        | (Except.error e, m) => (Except.error e, m)
        | (Except.ok op0Value, m) =>
            match op0Value.ToMemoryAddress with
            | Except.error e => (Except.error e, m)
            | Except.ok a => (Except.ok ⟨a.SegmentIndex, a.Offset⟩, m)
    | Op1Src.Imm => (Except.ok vm.Context.AddressPc, vm.Memory)
    | Op1Src.FpPlusOffOp1 => (Except.ok vm.Context.AddressFp, vm.Memory)
    | Op1Src.ApPlusOffOp1 => (Except.ok vm.Context.AddressAp, vm.Memory)
  match base with
  | (Except.error e, m) => (Except.error e, m)
  | (Except.ok op1Address, m) =>
      match SafeOffset op1Address.Offset i.OffOp1 with
      | none => (Except.error VmErr.offsetOverflow, m)
      | some addr => (Except.ok ⟨op1Address.SegmentIndex, addr⟩, m)

/-- `VirtualMachine.inferOperand`: for an `AssertEq` with Add/Mul res logic
where dst is known and exactly one of op0/op1 is unknown, computes the
missing operand (`dst − known` for Add with the tag of dst, `dst ÷ known`
as a Felt for Mul), writes it to the unknown operand's address and returns
dst as the inferred res; returns an unknown value when no inference applies. -/
def VirtualMachine.inferOperand (vm : VirtualMachine) (i : Instruction)
    (dstAddr op0Addr op1Addr : MemoryAddress) :
    Except VmErr MemoryValue × CairoVM.Memory :=
  if i.Opcode ≠ Opcode.AssertEq ∨
      (i.Res ≠ ResLogic.AddOperands ∧ i.Res ≠ ResLogic.MulOperands) then
    (Except.ok none, vm.Memory)
  else
    match vm.Memory.PeekFromAddress op0Addr with
    | (Except.error e, m) => (Except.error e, m)
    | (Except.ok op0Value, m) =>
    match m.PeekFromAddress op1Addr with
    | (Except.error e, m) => (Except.error e, m)
    | (Except.ok op1Value, m) =>
    if op0Value.Known ∧ op1Value.Known then (Except.ok none, m)
    else
    match m.PeekFromAddress dstAddr with
    | (Except.error e, m) => (Except.error e, m)
    | (Except.ok dstValue, m) =>
    if ¬ dstValue.Known then (Except.error VmErr.dstCellUnknown, m)
    else
      let knownOpValue := if op0Value.Known then op0Value else op1Value
      let unknownOpAddr := if op0Value.Known then op1Addr else op0Addr
      let missingVal : Except VmErr MemoryValue :=
        if i.Res = ResLogic.AddOperands then dstValue.Sub knownOpValue
        else dstValue.Div knownOpValue
      match missingVal with
      | Except.error e => (Except.error e, m)
      | Except.ok missing =>
          match m.WriteToAddress unknownOpAddr missing with
          | (Except.error e, m) => (Except.error e, m)
          | (Except.ok _, m) => (Except.ok dstValue, m)

/-- `VirtualMachine.computeRes`: res per the res-logic flag (`Unconstrained`
yields an unknown value, `Op1` reads op1, Add/Mul read both operands and
combine them). -/
def VirtualMachine.computeRes (vm : VirtualMachine) (i : Instruction)
    (op0Addr op1Addr : MemoryAddress) : Except VmErr MemoryValue × CairoVM.Memory :=
  match i.Res with
  | ResLogic.Unconstrained => (Except.ok none, vm.Memory)
  | ResLogic.Op1 => vm.Memory.ReadFromAddress op1Addr
  | r =>
      match vm.Memory.ReadFromAddress op0Addr with
      | (Except.error e, m) => (Except.error e, m)
      | (Except.ok op0, m) =>
      match m.ReadFromAddress op1Addr with
      | (Except.error e, m) => (Except.error e, m)
      | (Except.ok op1, m) =>
          if r = ResLogic.AddOperands then (op0.Add op1, m)
          else (op0.Mul op1, m)

/-- `VirtualMachine.opcodeAssertions`: `Call` writes the current fp (as an
address) into dst and the return pc (pc + instruction size) into op0;
`AssertEq` writes res into dst (subject to single assignment). -/
def VirtualMachine.opcodeAssertions (vm : VirtualMachine) (i : Instruction)
    (dstAddr op0Addr : MemoryAddress) (res : MemoryValue) :
    Except VmErr Unit × CairoVM.Memory :=
  match i.Opcode with
  | Opcode.Call =>
      let fpAddr := vm.Context.AddressFp
      let fpMv := MemoryValueFromMemoryAddress fpAddr
      match vm.Memory.WriteToAddress dstAddr fpMv with
      | (Except.error e, m) => (Except.error e, m)
      | (Except.ok _, m) =>
          let apMv := MemoryValueFromSegmentAndOffset
            vm.Context.Pc.SegmentIndex ((vm.Context.Pc.Offset + i.Size) % U64)
          m.WriteToAddress op0Addr apMv
  | Opcode.AssertEq => vm.Memory.WriteToAddress dstAddr res
  | _ => (Except.ok (), vm.Memory)

/-- `VirtualMachine.updatePc`: next pc per the pc-update flag. -/
def VirtualMachine.updatePc (vm : VirtualMachine) (i : Instruction)
    (dstAddr op1Addr : MemoryAddress) (res : MemoryValue) :
    Except VmErr MemoryAddress × CairoVM.Memory :=
  match i.PcUpdate with
  | PcUpdate.NextInstr =>
      (Except.ok ⟨vm.Context.Pc.SegmentIndex, (vm.Context.Pc.Offset + i.Size) % U64⟩,
        vm.Memory)
  | PcUpdate.Jump =>
      match res.ToMemoryAddress with
      | Except.error e => (Except.error e, vm.Memory)
      | Except.ok addr => (Except.ok addr, vm.Memory)
  | PcUpdate.JumpRel =>
      match res.ToFieldElement with
      | Except.error e => (Except.error e, vm.Memory)
      | Except.ok val =>
          match vm.Context.Pc.AddFelt val with
          | Except.error e => (Except.error e, vm.Memory)
          | Except.ok newPc => (Except.ok newPc, vm.Memory)
  | PcUpdate.Jnz =>
      match vm.Memory.ReadFromAddress dstAddr with
      | (Except.error e, m) => (Except.error e, m)
      | (Except.ok destMv, m) =>
      match destMv.ToFieldElement with
      | Except.error e => (Except.error e, m)
      | Except.ok dest =>
      if dest = 0 then
        (Except.ok ⟨vm.Context.Pc.SegmentIndex, (vm.Context.Pc.Offset + i.Size) % U64⟩, m)
      else
        match m.ReadFromAddress op1Addr with
        | (Except.error e, m) => (Except.error e, m)
        | (Except.ok op1Mv, m) =>
        match op1Mv.ToFieldElement with
        | Except.error e => (Except.error e, m)
        | Except.ok val =>
            match vm.Context.Pc.AddFelt val with
            | Except.error e => (Except.error e, m)
            | Except.ok newPc => (Except.ok newPc, m)

/-- `VirtualMachine.updateAp`: next ap per the ap-update flag (`uint64`
arithmetic). -/
def VirtualMachine.updateAp (vm : VirtualMachine) (i : Instruction)
    (res : MemoryValue) : Except VmErr Nat :=
  match i.ApUpdate with
  | ApUpdate.SameAp => Except.ok vm.Context.Ap
  | ApUpdate.AddImm =>
      match res.Uint64 with
      | Except.error e => Except.error e
      | Except.ok res64 => Except.ok ((vm.Context.Ap + res64) % U64)
  | ApUpdate.Add1 => Except.ok ((vm.Context.Ap + 1) % U64)
  | ApUpdate.Add2 => Except.ok ((vm.Context.Ap + 2) % U64)

/-- `VirtualMachine.updateFp`: `Call` → ap + 2; `Ret` → the offset of the
address read from dst; otherwise fp unchanged. -/
def VirtualMachine.updateFp (vm : VirtualMachine) (i : Instruction)
    (dstAddr : MemoryAddress) : Except VmErr Nat × CairoVM.Memory :=
  match i.Opcode with
  | Opcode.Call => (Except.ok ((vm.Context.Ap + 2) % U64), vm.Memory)
  | Opcode.Ret =>
      match vm.Memory.ReadFromAddress dstAddr with
      | (Except.error e, m) => (Except.error e, m)
      | (Except.ok destMv, m) =>
          match destMv.ToMemoryAddress with
          | Except.error e => (Except.error e, m)
          | Except.ok dst => (Except.ok dst.Offset, m)
  | _ => (Except.ok vm.Context.Fp, vm.Memory)

/-- `VirtualMachine.RunInstruction`: the per-step transition after decode:
address resolution, operand inference, res computation, opcode assertions and
register updates, exactly in the source's order.  Memory mutations performed
before a failing phase persist (the Go code mutates in place); the registers
are only assigned after all three updates succeeded. -/
def VirtualMachine.RunInstruction (vm : VirtualMachine) (i : Instruction) :
    Except VmErr Unit × VirtualMachine :=
  match vm.getDstAddr i with
  | Except.error e => (Except.error e, vm)
  | Except.ok dstAddr =>
  match vm.getOp0Addr i with
  | Except.error e => (Except.error e, vm)
  | Except.ok op0Addr =>
  match vm.getOp1Addr i op0Addr with
  | (Except.error e, m) => (Except.error e, { vm with Memory := m })
  | (Except.ok op1Addr, m) =>
  let vm := { vm with Memory := m }
  match vm.inferOperand i dstAddr op0Addr op1Addr with
  | (Except.error e, m) => (Except.error e, { vm with Memory := m })
  | (Except.ok res0, m) =>
  let vm := { vm with Memory := m }
  let resStep : Except VmErr MemoryValue × CairoVM.Memory :=
    if res0.Known then (Except.ok res0, vm.Memory)
    else vm.computeRes i op0Addr op1Addr
  match resStep with
  | (Except.error e, m) => (Except.error e, { vm with Memory := m })
  | (Except.ok res, m) =>
  let vm := { vm with Memory := m }
  match vm.opcodeAssertions i dstAddr op0Addr res with
  | (Except.error e, m) => (Except.error e, { vm with Memory := m })
  | (Except.ok _, m) =>
  let vm := { vm with Memory := m }
  match vm.updatePc i dstAddr op1Addr res with
  | (Except.error e, m) => (Except.error e, { vm with Memory := m })
  | (Except.ok nextPc, m) =>
  let vm := { vm with Memory := m }
  match vm.updateAp i res with
  | Except.error e => (Except.error e, vm)
  | Except.ok nextAp =>
  match vm.updateFp i dstAddr with
  | (Except.error e, m) => (Except.error e, { vm with Memory := m })
  | (Except.ok nextFp, m) =>
      (Except.ok (),
        { vm with
          Memory := m
          Context := { Pc := nextPc, Ap := nextAp, Fp := nextFp } })

/-- `VirtualMachine.RunStep`: reads the instruction word at pc, decodes it
(via the external decoder parameter; the source's per-pc cache is skipped,
see `VirtualMachine`), appends the pre-step context to the trace in proof
mode, runs the instruction and increments the step counter on success. -/
def VirtualMachine.RunStep (decode : Felt → Option Instruction)
    (vm : VirtualMachine) : Except VmErr Unit × VirtualMachine :=
  match vm.Memory.ReadFromAddress vm.Context.Pc with
  | (Except.error e, m) => (Except.error e, { vm with Memory := m })
  | (Except.ok memoryValue, m) =>
  let vm := { vm with Memory := m }
  match memoryValue.ToFieldElement with
  | Except.error e => (Except.error e, vm)
  | Except.ok bytecodeInstruction =>
  match decode bytecodeInstruction with
  | none => (Except.error VmErr.invalidInstruction, vm)
  | some instruction =>
  let vm := if vm.config.ProofMode
    then { vm with Trace := vm.Trace ++ [vm.Context] } else vm
  match vm.RunInstruction instruction with
  | (Except.error e, vm) => (Except.error e, vm)
  | (Except.ok _, vm) => (Except.ok (), { vm with Step := vm.Step + 1 })

/-- `VirtualMachine.relocateTrace`: relocates every recorded snapshot with
`executionSegmentOffset = program_segment.Len() + 1` (one is added because
the prover expects the first element to be indexed 1).  The source indexes
`Segments[ProgramSegment]` directly; callers guarantee the program segment
exists, and the claims below carry that hypothesis. -/
def VirtualMachine.relocateTrace (vm : VirtualMachine) : List CairoVM.Trace :=
  let totalBytecode := (vm.Memory.Segments.getD ProgramSegment EmptySegment).Len + 1
  vm.Trace.map (fun ctx => ctx.Relocate totalBytecode)

/-! ## The zero runner (`pkg/runners/zero`) -/

/-- The compiled-program artifact: bytecode, labels and entrypoints (spec
§3/§6; parsing the artifact is external). -/
structure Program where
  Bytecode : List Felt
  Labels : List (String × Nat)
  Entrypoints : List (String × Nat)
deriving DecidableEq

/-- Errors produced by the runner layer.  `vmError` wraps a vm/memory error
(Go wraps with pc/step context, which carries no semantic content). -/
inductive RunErr where
  /-- `Run`: "cannot re-run using the same runner". -/
  | reRun
  /-- `RunUntilPc`/`RunFor`: "max step limit exceeded". -/
  | maxStepsExceeded
  /-- `InitializeMainEntrypoint`: "start label not found". -/
  | startLabelNotFound
  /-- `InitializeMainEntrypoint`: "end label not found". -/
  | endLabelNotFound
  /-- `InitializeEntrypoint`: "unknwon entrypoint: %s". -/
  | unknownEntrypoint (name : String)
  /-- a wrapped vm or memory error. -/
  | vmError (e : VmErr)
deriving DecidableEq

/-- The `ZeroRunner`.  The Go struct holds the memory both through its
`memoryManager` and through the vm; the two are the same object, so the model
keeps a single copy inside `vm`.  `runFinished` is the auxiliary re-run
flag, `false` on a fresh runner (Go zero value). -/
structure ZeroRunner where
  program : Program
  vm : VirtualMachine
  proofmode : Bool
  maxsteps : Nat
  runFinished : Bool
deriving DecidableEq

/-- `NewRunner(program, proofmode, maxsteps)`: allocates the program segment
from the bytecode and an empty execution segment, and starts the vm on a
zero context. -/
def NewRunner (program : Program) (proofmode : Bool) (maxsteps : Nat) :
    Except VmErr ZeroRunner := do
  let (_, memory) ← InitializeEmptyMemory.AllocateSegment program.Bytecode
  let (_, memory) := memory.AllocateEmptySegment
  Except.ok
    { program := program
      vm :=
        { Context := { Pc := ⟨0, 0⟩, Fp := 0, Ap := 0 }
          Memory := memory
          Step := 0
          Trace := []
          config := { ProofMode := proofmode } }
      proofmode := proofmode
      maxsteps := maxsteps
      runFinished := false }

/-- The argument-writing loop of `InitializeEntrypoint`: writes each
positional argument into the execution segment at consecutive offsets. -/
def writeArguments (m : Memory) (arguments : List Felt) (i : Nat) :
    Except VmErr Unit × Memory :=
  match arguments with
  | [] => (Except.ok (), m)
  | a :: rest =>
      match m.Write ExecutionSegment i (MemoryValueFromFieldElement a) with
      | (Except.error e, m) => (Except.error e, m)
      | (Except.ok _, m) => writeArguments m rest (i + 1)

/-- `ZeroRunner.InitializeEntrypoint(funcName, arguments, returnFp)`:
allocates a fresh segment (whose first cell is the sentinel end address),
writes the arguments, then `returnFp` at the execution segment's logical end
and the end sentinel right after it, and only then resolves the entrypoint
name — failing with "unknwon entrypoint" after those mutations.  On success
it points the context at the entrypoint with `ap = fp = offset + 2`. -/
def ZeroRunner.InitializeEntrypoint (r : ZeroRunner) (funcName : String)
    (arguments : List Felt) (returnFp : MemoryValue) :
    Except RunErr MemoryAddress × ZeroRunner :=
  let (segmentIndex, m) := r.vm.Memory.AllocateEmptySegment
  let endAddr : MemoryAddress := ⟨segmentIndex, 0⟩
  match writeArguments m arguments 0 with
  | (Except.error e, m) => (Except.error (RunErr.vmError e), { r with vm := { r.vm with Memory := m } })
  | (Except.ok _, m) =>
  let offset := (m.Segments.getD ExecutionSegment EmptySegment).Len
  match m.Write ExecutionSegment offset returnFp with
  | (Except.error e, m) => (Except.error (RunErr.vmError e), { r with vm := { r.vm with Memory := m } })
  | (Except.ok _, m) =>
  let endMV := MemoryValueFromMemoryAddress endAddr
  match m.Write ExecutionSegment ((offset + 1) % U64) endMV with
  | (Except.error e, m) => (Except.error (RunErr.vmError e), { r with vm := { r.vm with Memory := m } })
  | (Except.ok _, m) =>
  let r := { r with vm := { r.vm with Memory := m } }
  match r.program.Entrypoints.lookup funcName with
  | none => (Except.error (RunErr.unknownEntrypoint funcName), r)
  | some pc =>
      let ap := (offset + 2) % U64
      (Except.ok endAddr,
        { r with vm := { r.vm with
            Context := { Pc := ⟨ProgramSegment, pc⟩, Ap := ap, Fp := ap } } })

/-- `ZeroRunner.InitializeMainEntrypoint`: in proof mode resolves the
`__start__`/`__end__` labels, writes the dummy fp and dummy pc values at the
execution segment's end, points the context at `__start__` with
`ap = fp = offset + 2` and returns the `__end__` address; otherwise
allocates a fresh return-fp segment and initializes the `main` entrypoint. -/
def ZeroRunner.InitializeMainEntrypoint (r : ZeroRunner) :
    Except RunErr MemoryAddress × ZeroRunner :=
  if r.proofmode then
    match r.program.Labels.lookup "__start__" with
    | none => (Except.error RunErr.startLabelNotFound, r)
    | some startPc =>
    match r.program.Labels.lookup "__end__" with
    | none => (Except.error RunErr.endLabelNotFound, r)
    | some endPc =>
    let offset := (r.vm.Memory.Segments.getD ExecutionSegment EmptySegment).Len
    let dummyFPValue := MemoryValueFromSegmentAndOffset ProgramSegment
      (((r.vm.Memory.Segments.getD ProgramSegment EmptySegment).Len + offset + 2) % U64)
    match r.vm.Memory.Write ExecutionSegment offset dummyFPValue with
    | (Except.error e, m) => (Except.error (RunErr.vmError e), { r with vm := { r.vm with Memory := m } })
    | (Except.ok _, m) =>
    let dummyPCValue := MemoryValueFromUint 0
    match m.Write ExecutionSegment ((offset + 1) % U64) dummyPCValue with
    | (Except.error e, m) => (Except.error (RunErr.vmError e), { r with vm := { r.vm with Memory := m } })
    | (Except.ok _, m) =>
        let ap := (offset + 2) % U64
        (Except.ok ⟨ProgramSegment, endPc⟩,
          { r with vm := { r.vm with
              Memory := m
              Context := { Pc := ⟨ProgramSegment, startPc⟩, Ap := ap, Fp := ap } } })
  else
    let (idx, m) := r.vm.Memory.AllocateEmptySegment
    let returnFp := MemoryValueFromSegmentAndOffset idx 0
    ZeroRunner.InitializeEntrypoint { r with vm := { r.vm with Memory := m } }
      "main" [] returnFp

/-- `RunInstruction` never changes the step counter (it only touches memory
and, on success, the registers). -/
theorem VirtualMachine.RunInstruction_Step (vm : VirtualMachine)
    (i : Instruction) : ((vm.RunInstruction i).2).Step = vm.Step := by
  unfold VirtualMachine.RunInstruction
  repeat' (first | split | dsimp only)

/-- A successful `RunStep` increments the step counter by exactly one. -/
theorem VirtualMachine.RunStep_Step (decode : Felt → Option Instruction)
    (vm : VirtualMachine) (u : Unit) (vm' : VirtualMachine)
    (h : vm.RunStep decode = (Except.ok u, vm')) : vm'.Step = vm.Step + 1 := by
  unfold VirtualMachine.RunStep at h
  repeat' (first | split at h | dsimp only at h)
  all_goals try exact Except.noConfusion (congrArg Prod.fst h)
  all_goals
    rename_i heq
    have h3 := congrArg (fun p => (Prod.snd p).Step) h
    dsimp only at h3
    have h2 := congrArg (fun p => (Prod.snd p).Step) heq
    dsimp only at h2
    rw [VirtualMachine.RunInstruction_Step] at h2
    split at h2 <;> (dsimp only at h2; omega)

/-- `ZeroRunner.RunUntilPc(pc)`: steps the vm until the context's pc equals
the target, failing with the max-step error when the step counter reaches
`maxsteps` first.  Termination: each successful step increments `vm.Step`,
which is bounded by `maxsteps`. -/
def ZeroRunner.RunUntilPc (r : ZeroRunner) (decode : Felt → Option Instruction)
    (pc : MemoryAddress) : Except RunErr Unit × ZeroRunner :=
  if r.vm.Context.Pc = pc then (Except.ok (), r)
  else if r.vm.Step ≥ r.maxsteps then (Except.error RunErr.maxStepsExceeded, r)
  else
    match h : r.vm.RunStep decode with
    | (Except.error e, v) => (Except.error (RunErr.vmError e), { r with vm := v })
    | (Except.ok _, v) => ZeroRunner.RunUntilPc { r with vm := v } decode pc
termination_by r.maxsteps - r.vm.Step
decreasing_by
  have := VirtualMachine.RunStep_Step decode r.vm _ _ h
  simp only [this]
  omega

/-- `ZeroRunner.RunFor(steps)`: steps the vm until the step counter is at
least `steps` (note: a *total* step count, not an increment), with the same
max-step cap. -/
def ZeroRunner.RunFor (r : ZeroRunner) (decode : Felt → Option Instruction)
    (steps : Nat) : Except RunErr Unit × ZeroRunner :=
  if r.vm.Step < steps then
    if r.vm.Step ≥ r.maxsteps then (Except.error RunErr.maxStepsExceeded, r)
    else
      match h : r.vm.RunStep decode with
      | (Except.error e, v) => (Except.error (RunErr.vmError e), { r with vm := v })
      | (Except.ok _, v) => ZeroRunner.RunFor { r with vm := v } decode steps
  else (Except.ok (), r)
termination_by steps - r.vm.Step
decreasing_by
  have := VirtualMachine.RunStep_Step decode r.vm _ _ h
  simp only [this]
  omega

/-- Modelled from the spec: safemath's next-power-of-two — the least power of
two that is greater than or equal to the argument (computed by doubling; the
fuel argument of the auxiliary loop is sufficient since 2^n ≥ n). -/
def nptLoop (n : Nat) : Nat → Nat → Nat
  | p, 0 => p
  | p, fuel + 1 => if p < n then nptLoop n (p * 2) fuel else p

/-- Modelled from the spec: `NextPowerOfTwo(n)`, the least power of two ≥ n. -/
def NextPowerOfTwo (n : Nat) : Nat := nptLoop n 1 n

/-- The proof-mode tail of `ZeroRunner.Run`: "proof mode require an extra
instruction run" (`RunFor(1)`), then run until the step counter equals the
next power of two of the current step counter (`RunFor(NextPowerOfTwo(Step))`).
This is the code executed by `Run` after `RunUntilPc` succeeds in proof
mode. -/
def ZeroRunner.runPadding (r : ZeroRunner) (decode : Felt → Option Instruction) :
    Except RunErr Unit × ZeroRunner :=
  match r.RunFor decode 1 with
  | (Except.error e, r) => (Except.error e, r)
  | (Except.ok _, r) =>
      let pow2Steps := NextPowerOfTwo r.vm.Step
      r.RunFor decode pow2Steps

/-- `ZeroRunner.Run`: refuses a runner whose `runFinished` flag is set,
initializes the main entrypoint, runs until the returned end pc and, in
proof mode, runs the padding tail. -/
def ZeroRunner.Run (r : ZeroRunner) (decode : Felt → Option Instruction) :
    Except RunErr Unit × ZeroRunner :=
  if r.runFinished then (Except.error RunErr.reRun, r)
  else
    match r.InitializeMainEntrypoint with
    | (Except.error e, r) => (Except.error e, r)
    | (Except.ok endAddr, r) =>
        match r.RunUntilPc decode endAddr with
        | (Except.error e, r) => (Except.error e, r)
        | (Except.ok _, r) =>
            if r.proofmode then r.runPadding decode
            else (Except.ok (), r)

/-! ## Binary trace codec (`EncodeTrace` / `DecodeTrace`) -/

/-- The 8-byte little-endian encoding of a `uint64`
(`binary.LittleEndian.AppendUint64`). -/
def u64LE (x : Nat) : List Nat :=
  [x % 2 ^ 8, x / 2 ^ 8 % 2 ^ 8, x / 2 ^ 16 % 2 ^ 8, x / 2 ^ 24 % 2 ^ 8,
   x / 2 ^ 32 % 2 ^ 8, x / 2 ^ 40 % 2 ^ 8, x / 2 ^ 48 % 2 ^ 8, x / 2 ^ 56 % 2 ^ 8]

/-- `binary.LittleEndian.Uint64` of 8 bytes. -/
def u64Of (b0 b1 b2 b3 b4 b5 b6 b7 : Nat) : Nat :=
  b0 + 2 ^ 8 * b1 + 2 ^ 16 * b2 + 2 ^ 24 * b3 +
    2 ^ 32 * b4 + 2 ^ 40 * b5 + 2 ^ 48 * b6 + 2 ^ 56 * b7

/-- `EncodeTrace`: one 24-byte record per entry, little-endian
`ap || fp || pc` (note the order). -/
def EncodeTrace : List Trace → List Nat
  | [] => []
  | t :: rest => u64LE t.Ap ++ u64LE t.Fp ++ u64LE t.Pc ++ EncodeTrace rest

/-- `DecodeTrace`: reads consecutive 24-byte records back into trace entries.
The source indexes the content in 24-byte chunks and panics when the length
is not a multiple of 24 (impossible for encoder output); a short tail is
modelled as producing no further entries. -/
def DecodeTrace : List Nat → List Trace
  | a0 :: a1 :: a2 :: a3 :: a4 :: a5 :: a6 :: a7 ::
    b0 :: b1 :: b2 :: b3 :: b4 :: b5 :: b6 :: b7 ::
    c0 :: c1 :: c2 :: c3 :: c4 :: c5 :: c6 :: c7 :: rest =>
      { Ap := u64Of a0 a1 a2 a3 a4 a5 a6 a7
        Fp := u64Of b0 b1 b2 b3 b4 b5 b6 b7
        Pc := u64Of c0 c1 c2 c3 c4 c5 c6 c7 } :: DecodeTrace rest
  | _ => []

/-! ## Helper lemmas: segment growth and writes -/

theorem getD_append_replicate (l : List MemoryValue) (k i : Nat) :
    (l ++ List.replicate k (none : MemoryValue)).getD i none = l.getD i none := by
  simp only [List.getD_eq_getElem?_getD]
  rcases lt_or_le i l.length with h | h
  · rw [List.getElem?_append_left h]
  · rw [List.getElem?_append_right h, List.getElem?_eq_none h, List.getElem?_replicate]
    split <;> rfl

/-- Growing a segment never changes the value stored at any offset (new cells
are unknown, matching the out-of-range default). -/
theorem Segment.IncreaseSegmentSize_getD (s : Segment) (n i : Nat) :
    ((s.IncreaseSegmentSize n).Data).getD i none = s.Data.getD i none := by
  unfold Segment.IncreaseSegmentSize
  split
  · rfl
  split
  · exact getD_append_replicate s.Data _ i
  · exact getD_append_replicate s.Data _ i

/-- Growing to `n` yields a physical length at least `n` and never shrinks. -/
theorem Segment.IncreaseSegmentSize_length (s : Segment) (n : Nat) :
    n ≤ (s.IncreaseSegmentSize n).Data.length ∧
      s.Data.length ≤ (s.IncreaseSegmentSize n).Data.length := by
  unfold Segment.IncreaseSegmentSize
  split
  · omega
  split
  · dsimp only
    rw [List.length_append, List.length_replicate]
    omega
  · dsimp only
    rw [List.length_append, List.length_replicate]
    have h1 := Nat.le_max_left n (s.Data.length * 2)
    have h2 := Nat.le_max_right n (s.Data.length * 2)
    omega

theorem Segment.IncreaseSegmentSize_LastIndex (s : Segment) (n : Nat) :
    (s.IncreaseSegmentSize n).LastIndex = s.LastIndex := by
  unfold Segment.IncreaseSegmentSize
  split
  · rfl
  split <;> rfl

theorem Segment.IncreaseSegmentSize_Len (s : Segment) (n : Nat) :
    (s.IncreaseSegmentSize n).Len = s.Len := by
  unfold Segment.Len
  rw [Segment.IncreaseSegmentSize_LastIndex]

theorem Segment.IncreaseSegmentSize_BuiltinRunner (s : Segment) (n : Nat) :
    (s.IncreaseSegmentSize n).BuiltinRunner = s.BuiltinRunner := by
  unfold Segment.IncreaseSegmentSize
  split
  · rfl
  split <;> rfl

/-- Every builtin variant of the sources approves every write. -/
theorem BuiltinKind.CheckWrite_ok (b : BuiltinKind) (o : Nat) (v : MemoryValue) :
    b.CheckWrite o v = Except.ok () := by
  cases b
  rfl

/-- A known cell lies within the physical length. -/
theorem known_lt_length (l : List MemoryValue) (o : Nat)
    (h : (l.getD o none).Known) : o < l.length := by
  by_contra hlt
  rw [List.getD_eq_getElem?_getD, List.getElem?_eq_none (by omega)] at h
  exact Bool.noConfusion h

/-- Closed form of `Segment.Write`: a rewrite error leaves the data intact
(only `LastIndex` may have been bumped, which happens before the check); a
successful write stores the value into the (possibly grown) data. -/
theorem Segment.Write_eq (s : Segment) (o : Nat) (v : MemoryValue) :
    s.Write o v =
      if (s.Data.getD o none).Known ∧ s.Data.getD o none ≠ v then
        (Except.error VmErr.rewriteCell,
          { s with LastIndex := if o ≥ s.Len then (o : Int) else s.LastIndex })
      else
        (Except.ok (),
          { (if o ≥ s.RealLen then s.IncreaseSegmentSize (o + 1) else s) with
            LastIndex := if o ≥ s.Len then (o : Int) else s.LastIndex
            Data :=
              ((if o ≥ s.RealLen then s.IncreaseSegmentSize (o + 1) else s).Data).set o v }) := by
  by_cases hrw : (s.Data.getD o none).Known ∧ s.Data.getD o none ≠ v
  · have hlt : o < s.Data.length := known_lt_length _ _ hrw.1
    have hgs : (if o ≥ s.RealLen then s.IncreaseSegmentSize (o + 1) else s) = s := by
      rw [if_neg]
      unfold Segment.RealLen
      omega
    rw [if_pos hrw]
    unfold Segment.Write
    dsimp only
    rw [hgs]
    split <;> first
    | rfl
    | (dsimp only; rw [if_pos hrw])
    | rw [if_pos hrw]
  · rw [if_neg hrw]
    unfold Segment.Write
    dsimp only
    split
    · rw [Segment.IncreaseSegmentSize_Len]
      split <;>
        (try rw [Segment.IncreaseSegmentSize_getD]) <;>
        (try rw [if_neg hrw]) <;>
        simp only [Segment.IncreaseSegmentSize_LastIndex,
          Segment.IncreaseSegmentSize_BuiltinRunner, BuiltinKind.CheckWrite_ok] <;>
        try rfl
    · split <;> (try rw [if_neg hrw]) <;>
        simp only [BuiltinKind.CheckWrite_ok] <;> try rfl

/-- Writing back the value a cell already holds does not change the list. -/
theorem set_of_getD (l : List MemoryValue) (o : Nat) (a : MemoryValue)
    (ho : o < l.length) (h : l.getD o none = a) : l.set o a = l := by
  apply List.ext_getElem?
  intro n
  rw [List.getElem?_set]
  split
  · rename_i he
    subst he
    rw [List.getElem?_eq_getElem ho]
    rw [List.getD_eq_getElem?_getD, List.getElem?_eq_getElem ho] at h
    simp only [Option.getD_some] at h
    rw [h]
  · rfl

/-- The logical length after a `Write` (the bump happens even when the write
then fails with a rewrite error). -/
theorem Segment.Write_Len (s : Segment) (o : Nat) (v : MemoryValue) :
    ((s.Write o v).2).Len = if o ≥ s.Len then o + 1 else s.Len := by
  rw [Segment.Write_eq]
  by_cases hko : (s.Data.getD o none).Known ∧ s.Data.getD o none ≠ v
  · rw [if_pos hko]
    by_cases ho : o ≥ s.Len
    · simp only [if_pos ho]
      unfold Segment.Len
      dsimp only
      omega
    · simp only [if_neg ho]
      try rfl
  · rw [if_neg hko]
    by_cases ho : o ≥ s.Len
    · simp only [if_pos ho]
      unfold Segment.Len
      dsimp only
      omega
    · simp only [if_neg ho]
      try rfl

/-- The logical length after a `Peek` (non-strict comparison, like `Write`). -/
theorem Segment.Peek_Len (s : Segment) (o : Nat) :
    ((s.Peek o).2).Len = if o ≥ s.Len then o + 1 else s.Len := by
  unfold Segment.Peek
  dsimp only
  by_cases hg : o ≥ s.RealLen
  · simp only [if_pos hg, Segment.IncreaseSegmentSize_Len]
    by_cases ho : o ≥ s.Len
    · simp only [if_pos ho]
      unfold Segment.Len
      dsimp only
      omega
    · simp only [if_neg ho]
      unfold Segment.Len
      try dsimp only
      rw [Segment.IncreaseSegmentSize_LastIndex]
  · simp only [if_neg hg]
    by_cases ho : o ≥ s.Len
    · simp only [if_pos ho]
      unfold Segment.Len
      dsimp only
      omega
    · simp only [if_neg ho]
      try rfl

/-- The logical length after a `Read`: the source compares with a *strict*
`offset > Len()`, so a read at exactly the logical length does not bump it. -/
theorem Segment.Read_Len (s : Segment) (o : Nat) :
    ((s.Read o).2).Len = if o > s.Len then o + 1 else s.Len := by
  unfold Segment.Read
  dsimp only
  by_cases hg : o ≥ s.RealLen
  · simp only [if_pos hg, Segment.IncreaseSegmentSize_Len]
    by_cases ho : o > s.Len
    · simp only [if_pos ho]
      split <;> (unfold Segment.Len; dsimp only; omega)
    · simp only [if_neg ho]
      split <;> unfold Segment.Len <;> dsimp only <;>
        rw [Segment.IncreaseSegmentSize_LastIndex]
  · simp only [if_neg hg]
    by_cases ho : o > s.Len
    · simp only [if_pos ho]
      split <;> (unfold Segment.Len; dsimp only; omega)
    · simp only [if_neg ho]
      split <;> rfl

/-! ## Claims about the segment layer (C2, C4, C8, C9) -/

/-- Claim C2: for every segment, offset and values v1, v2, when
`Write(o, v1)` has succeeded, a second `Write(o, v2)` fails with the
rewrite-cell error exactly when v1 ≠ v2, and succeeds leaving the segment
unchanged (idempotently) when v1 = v2. -/
theorem claim_C2 (s : Segment) (o : Nat) (v1 v2 : Mv) (s1 : Segment)
    (h1 : s.Write o (some v1) = (Except.ok (), s1)) :
    ((s1.Write o (some v2)).1 = Except.error VmErr.rewriteCell ↔ v1 ≠ v2) ∧
    (v1 = v2 → s1.Write o (some v2) = (Except.ok (), s1)) := by
  have hLen0 : s1.Len = if o ≥ s.Len then o + 1 else s.Len := by
    have hw := Segment.Write_Len s o (some v1)
    rw [h1] at hw
    exact hw
  rw [Segment.Write_eq] at h1
  split at h1
  · exact absurd (congrArg Prod.fst h1) (by simp)
  · have hs1 := congrArg Prod.snd h1
    dsimp only at hs1
    -- the physical length of the grown data covers `o`
    have hglen : o <
        ((if o ≥ s.RealLen then s.IncreaseSegmentSize (o + 1) else s).Data).length := by
      split
      · have := Segment.IncreaseSegmentSize_length s (o + 1)
        omega
      · rename_i hnr
        unfold Segment.RealLen at hnr
        omega
    have hcell : s1.Data.getD o none = some v1 := by
      rw [← hs1]
      dsimp only
      rw [List.getD_eq_getElem?_getD, List.getElem?_set_self hglen]
      rfl
    have hlen1 : o < s1.Data.length := by
      rw [← hs1]
      dsimp only
      rw [List.length_set]
      exact hglen
    have hLen1 : o < s1.Len := by
      rw [hLen0]
      split <;> omega
    constructor
    · rw [Segment.Write_eq]
      by_cases hv : v1 = v2
      · rw [if_neg]
        · simp [hv]
        · rw [hcell, hv]
          simp
      · rw [if_pos]
        · simp [hv]
        · rw [hcell]
          refine ⟨rfl, ?_⟩
          simp [hv]
    · intro hv
      subst hv
      rw [Segment.Write_eq, if_neg]
      · rw [if_neg (by unfold Segment.RealLen; omega), if_neg (by omega),
          set_of_getD s1.Data o (some v1) hlen1 hcell]
      · rw [hcell]
        simp

/-- Witness for C2 at a concrete input: writing 3 then 4 at the same cell
gives the rewrite error, writing 3 then 3 succeeds (spec §8 scenario 4). -/
theorem claim_C2_witness :
    (((EmptySegment.Write 0 (some (Mv.felt 3))).2).Write 0 (some (Mv.felt 4))).1 =
        Except.error VmErr.rewriteCell ∧
      ((EmptySegment.Write 0 (some (Mv.felt 3))).2).Write 0 (some (Mv.felt 3)) =
        (Except.ok (), (EmptySegment.Write 0 (some (Mv.felt 3))).2) := by
  have h := claim_C2 EmptySegment 0 (Mv.felt 3) (Mv.felt 4)
    (EmptySegment.Write 0 (some (Mv.felt 3))).2 (by decide)
  have h2 := claim_C2 EmptySegment 0 (Mv.felt 3) (Mv.felt 3)
    (EmptySegment.Write 0 (some (Mv.felt 3))).2 (by decide)
  exact ⟨h.1.mpr (by decide), h2.2 rfl⟩

/-- Claim C8 (amended): `Len()` is always `last_index + 1` (clamped at
zero), and a `Write` or `Peek` at an offset `o ≥ Len()` makes `Len()` become
`o + 1` — but a `Read` does so only for `o > Len()` (the source uses a
strict comparison), so a `Read` at exactly `o = Len()` leaves the logical
length unchanged even though it initializes the cell. -/
theorem claim_C8 (s : Segment) (o : Nat) :
    (∀ v, ((s.Write o v).2).Len = if o ≥ s.Len then o + 1 else s.Len) ∧
      ((s.Peek o).2).Len = (if o ≥ s.Len then o + 1 else s.Len) ∧
      ((s.Read o).2).Len = (if o > s.Len then o + 1 else s.Len) ∧
      s.Len = (s.LastIndex + 1).toNat :=
  ⟨fun v => Segment.Write_Len s o v, Segment.Peek_Len s o, Segment.Read_Len s o, rfl⟩

/-- Counterexample for C8 as stated: a `Read` at offset 0 of an empty
segment (`Len() = 0`, so `o ≥ Len()`) leaves `Len() = 0`; the claim demands
`Len()` become `o + 1 = 1`. -/
theorem claim_C8_counterexample :
    ((EmptySegment.Read 0).2).Len = 0 ∧ ((EmptySegment.Read 0).2).Len ≠ 0 + 1 := by
  decide

/-- Claim C9 (amended): a `Write` that fails with the rewrite error returns
a segment whose data — hence the cell at `o` and every other cell — is
unchanged; the only possible state change is the `last_index` bump (to `o`,
when `o ≥ Len()`), which happens before the rewrite check. -/
theorem claim_C9 (s : Segment) (o : Nat) (v : Mv) (w : MemoryValue)
    (hv : s.Data.getD o none = some v) (hne : some v ≠ w) :
    s.Write o w =
      (Except.error VmErr.rewriteCell,
        { s with LastIndex := if o ≥ s.Len then (o : Int) else s.LastIndex }) := by
  have hc : (s.Data.getD o none).Known ∧ s.Data.getD o none ≠ w := by
    rw [hv]
    exact ⟨rfl, hne⟩
  rw [Segment.Write_eq, if_pos hc]

/-- Witness for C9: a concrete failed rewrite (cell 0 holds Felt 0 after a
read, writing Felt 1 fails) leaves the data untouched. -/
theorem claim_C9_witness :
    ((EmptySegment.Read 0).2).Data.getD 0 none = some (Mv.felt 0) ∧
      ((EmptySegment.Read 0).2).Write 0 (some (Mv.felt 1)) =
        (Except.error VmErr.rewriteCell,
          { (EmptySegment.Read 0).2 with
            LastIndex :=
              if 0 ≥ ((EmptySegment.Read 0).2).Len then (0 : Int)
              else ((EmptySegment.Read 0).2).LastIndex }) :=
  ⟨by decide, claim_C9 _ 0 (Mv.felt 0) (some (Mv.felt 1)) (by decide) (by decide)⟩

/-- Counterexample for C9's "the failed write changes nothing": after a
`Read` at offset 0 of an empty segment (which makes cell 0 known but leaves
`Len() = 0`), a failing `Write` at 0 still bumps `last_index`, changing the
segment. -/
theorem claim_C9_counterexample :
    (((EmptySegment.Read 0).2).Write 0 (some (Mv.felt 1))).1 =
        Except.error VmErr.rewriteCell ∧
      (((EmptySegment.Read 0).2).Write 0 (some (Mv.felt 1))).2 ≠
        (EmptySegment.Read 0).2 := by
  decide

/-- Claim C4: a write beyond the physical length `L > 0` (where the
capacity equals the physical length, as holds for every segment the code
produces with `L > 0`) grows the segment to exactly `max(o+1, 2·L)`,
succeeds, and preserves every entry below `L`. -/
theorem claim_C4 (s : Segment) (o : Nat) (v : MemoryValue)
    (h0 : 0 < s.Data.length) (hcap : s.Cap = s.Data.length)
    (ho : s.Data.length ≤ o) :
    (s.Write o v).1 = Except.ok () ∧
      ((s.Write o v).2).Data.length = max (o + 1) (2 * s.Data.length) ∧
      ∀ i, i < s.Data.length →
        ((s.Write o v).2).Data.getD i none = s.Data.getD i none := by
  have hcell : s.Data.getD o none = none := by
    rw [List.getD_eq_getElem?_getD, List.getElem?_eq_none ho]
    rfl
  have hcond : ¬((s.Data.getD o none).Known ∧ s.Data.getD o none ≠ v) := by
    rw [hcell]
    intro hh
    exact Bool.noConfusion hh.1
  have hgrow : o ≥ s.RealLen := ho
  have hglen : (s.IncreaseSegmentSize (o + 1)).Data.length =
      max (o + 1) (2 * s.Data.length) := by
    unfold Segment.IncreaseSegmentSize
    rw [if_neg (by omega), if_neg (by omega)]
    dsimp only
    rw [List.length_append, List.length_replicate]
    have h1 := Nat.le_max_left (o + 1) (s.Data.length * 2)
    have h2 := Nat.le_max_right (o + 1) (s.Data.length * 2)
    omega
  rw [Segment.Write_eq, if_neg hcond]
  refine ⟨rfl, ?_, ?_⟩
  · dsimp only
    rw [if_pos hgrow, List.length_set]
    exact hglen
  · intro i hi
    dsimp only
    rw [if_pos hgrow, List.getD_eq_getElem?_getD,
      List.getElem?_set_ne (by omega), ← List.getD_eq_getElem?_getD,
      Segment.IncreaseSegmentSize_getD]

/-- Witness for C4: writing at offset 5 of a one-cell segment grows the
data to max(6, 2) = 6 and succeeds. -/
theorem claim_C4_witness :
    ((EmptySegmentWithLength 1).Write 5 (some (Mv.felt 7))).1 = Except.ok () ∧
      (((EmptySegmentWithLength 1).Write 5 (some (Mv.felt 7))).2).Data.length =
        max (5 + 1) (2 * 1) := by
  have h := claim_C4 (EmptySegmentWithLength 1) 5 (some (Mv.felt 7))
    (by decide) (by decide) (by decide)
  exact ⟨h.1, h.2.1⟩

/-! ## Claims about trace relocation and the trace codec (C6, C7) -/

/-- Claim C6: trace relocation maps each recorded snapshot `(pc, ap, fp)` to
`(pc.offset + 1, ap + off, fp + off)` with
`off = program_segment.Len() + 1`, and preserves the trace length.  The
overflow-freedom hypotheses discharge the `uint64` wraps (Go arithmetic);
they hold in every real execution. -/
theorem claim_C6 (vm : VirtualMachine) (i : Nat) (ctx : Context)
    (hseg : 0 < vm.Memory.Segments.length)
    (hi : vm.Trace[i]? = some ctx)
    (hpc : ctx.Pc.Offset + 1 < U64)
    (hap : ctx.Ap + ((vm.Memory.Segments.getD ProgramSegment EmptySegment).Len + 1) < U64)
    (hfp : ctx.Fp + ((vm.Memory.Segments.getD ProgramSegment EmptySegment).Len + 1) < U64) :
    vm.relocateTrace.length = vm.Trace.length ∧
      vm.relocateTrace[i]? = some
        { Pc := ctx.Pc.Offset + 1
          Ap := ctx.Ap + ((vm.Memory.Segments.getD ProgramSegment EmptySegment).Len + 1)
          Fp := ctx.Fp + ((vm.Memory.Segments.getD ProgramSegment EmptySegment).Len + 1) } := by
  unfold VirtualMachine.relocateTrace
  constructor
  · exact List.length_map vm.Trace _
  · rw [List.getElem?_map, hi]
    dsimp only [Option.map]
    unfold Context.Relocate
    rw [Nat.mod_eq_of_lt hpc, Nat.mod_eq_of_lt hap, Nat.mod_eq_of_lt hfp]

/-- Witness for C6: relocating the snapshot `(pc=(0,5), fp=7, ap=9)` over a
program segment of logical length 0 yields `(pc=6, ap=10, fp=8)`. -/
theorem claim_C6_witness :
    ({ Context := { Pc := ⟨0, 0⟩, Fp := 0, Ap := 0 }
       Memory := { Segments := [EmptySegment] }
       Step := 1
       Trace := [{ Pc := ⟨0, 5⟩, Fp := 7, Ap := 9 }]
       config := { ProofMode := true } } : VirtualMachine).relocateTrace[0]? =
      some { Pc := 5 + 1, Ap := 9 + (EmptySegment.Len + 1), Fp := 7 + (EmptySegment.Len + 1) } :=
  (claim_C6 _ 0 { Pc := ⟨0, 5⟩, Fp := 7, Ap := 9 } (by decide) (by decide)
    (by decide) (by decide) (by decide)).2

/-- Little-endian byte decomposition of a `uint64` round-trips. -/
theorem u64Of_u64LE (x : Nat) (hx : x < U64) :
    u64Of (x % 2 ^ 8) (x / 2 ^ 8 % 2 ^ 8) (x / 2 ^ 16 % 2 ^ 8) (x / 2 ^ 24 % 2 ^ 8)
      (x / 2 ^ 32 % 2 ^ 8) (x / 2 ^ 40 % 2 ^ 8) (x / 2 ^ 48 % 2 ^ 8)
      (x / 2 ^ 56 % 2 ^ 8) = x := by
  unfold u64Of
  unfold U64 at hx
  omega

/-- Claim C7: decoding an encoded trace returns the original list of
entries; each record is 24 bytes little-endian `ap || fp || pc`.  The
`uint64` bounds hypothesis reflects the Go field types. -/
theorem claim_C7 (t : List Trace)
    (h : ∀ e ∈ t, e.Ap < U64 ∧ e.Fp < U64 ∧ e.Pc < U64) :
    DecodeTrace (EncodeTrace t) = t := by
  induction t with
  | nil => rfl
  | cons e rest ih =>
      have he := h e (List.mem_cons_self e rest)
      have hrest : ∀ x ∈ rest, x.Ap < U64 ∧ x.Fp < U64 ∧ x.Pc < U64 :=
        fun x hx => h x (List.mem_cons_of_mem e hx)
      simp only [EncodeTrace, u64LE, List.cons_append, List.nil_append]
      rw [DecodeTrace]
      rw [u64Of_u64LE e.Ap he.1, u64Of_u64LE e.Fp he.2.1, u64Of_u64LE e.Pc he.2.2,
        ih hrest]

/-- Witness for C7 on a concrete two-entry trace. -/
theorem claim_C7_witness :
    DecodeTrace (EncodeTrace
        [{ Pc := 3, Fp := 2, Ap := 1 }, { Pc := 5, Fp := 0, Ap := 2 ^ 64 - 1 }]) =
      [{ Pc := 3, Fp := 2, Ap := 1 }, { Pc := 5, Fp := 0, Ap := 2 ^ 64 - 1 }] :=
  claim_C7 _ (by decide)

/-! ## Claims about the runner loops (C1, C5) -/

/-- Claim C1 (the code at the failing inputs): when `RunUntilPc` ends with a
step count `S ≥ 1` that is already a power of two (`NextPowerOfTwo S = S`),
the proof-mode padding tail of `Run` — `RunFor(1)` followed by
`RunFor(NextPowerOfTwo(Step))` — executes *zero* further steps and returns
the runner unchanged: `RunFor` runs until a *total* step count, so
`RunFor(1)` is a no-op once `Step ≥ 1`, and the final count stays `S`,
which is not `≥ S + 1` as the claim demands. -/
theorem claim_C1 (r : ZeroRunner) (decode : Felt → Option Instruction) (S : Nat)
    (hS : r.vm.Step = S) (h1 : 1 ≤ S) (hpow : NextPowerOfTwo S = S) :
    r.runPadding decode = (Except.ok (), r) ∧
      ((r.runPadding decode).2).vm.Step = S ∧
      ¬ S + 1 ≤ ((r.runPadding decode).2).vm.Step := by
  have hrf1 : r.RunFor decode 1 = (Except.ok (), r) := by
    unfold ZeroRunner.RunFor
    rw [if_neg (by omega)]
  have hmain : r.runPadding decode = (Except.ok (), r) := by
    unfold ZeroRunner.runPadding
    rw [hrf1]
    dsimp only
    rw [hS, hpow]
    unfold ZeroRunner.RunFor
    rw [if_neg (by omega)]
  refine ⟨hmain, ?_, ?_⟩ <;> rw [hmain] <;> dsimp only <;> omega

/-- Witness for C1 at the concrete failing input S = 4: the padding tail
leaves the runner (and its step count 4) unchanged. -/
theorem claim_C1_witness :
    (1 ≤ 4 ∧ NextPowerOfTwo 4 = 4) ∧
      ({ program := { Bytecode := [], Labels := [], Entrypoints := [] }
         vm :=
           { Context := { Pc := ⟨0, 0⟩, Fp := 0, Ap := 0 }
             Memory := { Segments := [] }
             Step := 4
             Trace := []
             config := { ProofMode := true } }
         proofmode := true
         maxsteps := 1000
         runFinished := false } : ZeroRunner).runPadding (fun _ => none) =
        (Except.ok (),
          { program := { Bytecode := [], Labels := [], Entrypoints := [] }
            vm :=
              { Context := { Pc := ⟨0, 0⟩, Fp := 0, Ap := 0 }
                Memory := { Segments := [] }
                Step := 4
                Trace := []
                config := { ProofMode := true } }
            proofmode := true
            maxsteps := 1000
            runFinished := false }) :=
  ⟨⟨by decide, by decide⟩, (claim_C1 _ (fun _ => none) 4 rfl (by decide) (by decide)).1⟩

/-- `InitializeEntrypoint` never touches `runFinished` and never produces the
re-run error (its errors are wrapped vm errors or the unknown-entrypoint
error). -/
theorem ZeroRunner.InitializeEntrypoint_spec (r : ZeroRunner) (n : String)
    (a : List Felt) (f : MemoryValue) :
    ((r.InitializeEntrypoint n a f).2).runFinished = r.runFinished ∧
      ∀ e, (r.InitializeEntrypoint n a f).1 = Except.error e → e ≠ RunErr.reRun := by
  unfold ZeroRunner.InitializeEntrypoint
  repeat' (first | split | dsimp only)
  all_goals refine ⟨rfl, ?_⟩
  all_goals intro e he
  all_goals first
  | exact Except.noConfusion he
  | (cases Except.error.inj he; simp)

/-- `InitializeMainEntrypoint` never touches `runFinished` and never
produces the re-run error. -/
theorem ZeroRunner.InitializeMainEntrypoint_spec (r : ZeroRunner) :
    ((r.InitializeMainEntrypoint).2).runFinished = r.runFinished ∧
      ∀ e, (r.InitializeMainEntrypoint).1 = Except.error e → e ≠ RunErr.reRun := by
  unfold ZeroRunner.InitializeMainEntrypoint
  split
  · repeat' (first | split | dsimp only)
    all_goals refine ⟨rfl, ?_⟩
    all_goals intro e he
    all_goals first
    | exact Except.noConfusion he
    | (cases Except.error.inj he; simp)
  · exact ZeroRunner.InitializeEntrypoint_spec _ "main" [] _

/-- `RunFor` never touches `runFinished` and never produces the re-run
error (fuel-indexed induction over the loop). -/
theorem ZeroRunner.RunFor_aux (decode : Felt → Option Instruction) (steps : Nat) :
    ∀ fuel r, steps - r.vm.Step ≤ fuel →
      ((ZeroRunner.RunFor r decode steps).2).runFinished = r.runFinished ∧
        (ZeroRunner.RunFor r decode steps).1 ≠ Except.error RunErr.reRun := by
  intro fuel
  induction fuel with
  | zero =>
      intro r h
      unfold ZeroRunner.RunFor
      rw [if_neg (by omega)]
      exact ⟨rfl, by simp⟩
  | succ f ih =>
      intro r h
      unfold ZeroRunner.RunFor
      split
      · split
        · exact ⟨rfl, by simp⟩
        · split
          · exact ⟨rfl, by simp⟩
          · rename_i hlt hms x v heq
            have hstep := VirtualMachine.RunStep_Step decode r.vm _ _ heq
            exact ih { r with vm := v } (by dsimp only; omega)
      · exact ⟨rfl, by simp⟩

theorem ZeroRunner.RunFor_spec (r : ZeroRunner) (decode : Felt → Option Instruction)
    (steps : Nat) :
    ((r.RunFor decode steps).2).runFinished = r.runFinished ∧
      (r.RunFor decode steps).1 ≠ Except.error RunErr.reRun :=
  ZeroRunner.RunFor_aux decode steps (steps - r.vm.Step) r (Nat.le_refl _)

/-- `RunUntilPc` never touches `runFinished` and never produces the re-run
error. -/
theorem ZeroRunner.RunUntilPc_aux (decode : Felt → Option Instruction)
    (pc : MemoryAddress) :
    ∀ fuel r, r.maxsteps - r.vm.Step ≤ fuel →
      ((ZeroRunner.RunUntilPc r decode pc).2).runFinished = r.runFinished ∧
        (ZeroRunner.RunUntilPc r decode pc).1 ≠ Except.error RunErr.reRun := by
  intro fuel
  induction fuel with
  | zero =>
      intro r h
      unfold ZeroRunner.RunUntilPc
      split
      · exact ⟨rfl, by simp⟩
      · rw [if_pos (by omega)]
        exact ⟨rfl, by simp⟩
  | succ f ih =>
      intro r h
      unfold ZeroRunner.RunUntilPc
      split
      · exact ⟨rfl, by simp⟩
      · split
        · exact ⟨rfl, by simp⟩
        · split
          · exact ⟨rfl, by simp⟩
          · rename_i hpc hms x v heq
            have hstep := VirtualMachine.RunStep_Step decode r.vm _ _ heq
            exact ih { r with vm := v } (by dsimp only; omega)

theorem ZeroRunner.RunUntilPc_spec (r : ZeroRunner)
    (decode : Felt → Option Instruction) (pc : MemoryAddress) :
    ((r.RunUntilPc decode pc).2).runFinished = r.runFinished ∧
      (r.RunUntilPc decode pc).1 ≠ Except.error RunErr.reRun :=
  ZeroRunner.RunUntilPc_aux decode pc (r.maxsteps - r.vm.Step) r (Nat.le_refl _)

/-- The proof-mode padding tail never touches `runFinished` and never
produces the re-run error. -/
theorem ZeroRunner.runPadding_spec (r : ZeroRunner)
    (decode : Felt → Option Instruction) :
    ((r.runPadding decode).2).runFinished = r.runFinished ∧
      (r.runPadding decode).1 ≠ Except.error RunErr.reRun := by
  unfold ZeroRunner.runPadding
  split
  · rename_i e r' heq
    have h := ZeroRunner.RunFor_spec r decode 1
    rw [heq] at h
    exact h
  · rename_i x r' heq
    have h1 := ZeroRunner.RunFor_spec r decode 1
    rw [heq] at h1
    have h2 := ZeroRunner.RunFor_spec r' decode (NextPowerOfTwo r'.vm.Step)
    exact ⟨h2.1.trans h1.1, h2.2⟩

/-- Claim C5 (the code): `Run` never sets `runFinished` — no code path
assigns it — so on a runner whose flag is `false` (as `NewRunner` creates
it, and as it remains after any number of completed runs) `Run` never
returns the re-run error; a second call simply executes again. -/
theorem claim_C5 (r : ZeroRunner) (decode : Felt → Option Instruction) :
    ((r.Run decode).2).runFinished = r.runFinished ∧
      (r.runFinished = false → (r.Run decode).1 ≠ Except.error RunErr.reRun) := by
  unfold ZeroRunner.Run
  by_cases hrf : r.runFinished
  · rw [if_pos hrf]
    exact ⟨rfl, fun hfalse => absurd hrf (by rw [hfalse]; exact Bool.noConfusion)⟩
  · rw [if_neg hrf]
    have hmain : ∀ p : Except RunErr Unit × ZeroRunner,
        (match r.InitializeMainEntrypoint with
          | (Except.error e, r) => (Except.error e, r)
          | (Except.ok endAddr, r) =>
              match r.RunUntilPc decode endAddr with
              | (Except.error e, r) => (Except.error e, r)
              | (Except.ok _, r) =>
                  if r.proofmode then r.runPadding decode
                  else (Except.ok (), r)) = p →
        p.2.runFinished = r.runFinished ∧ p.1 ≠ Except.error RunErr.reRun := by
      intro p hp
      split at hp
      · rename_i e r1 heq
        have h := ZeroRunner.InitializeMainEntrypoint_spec r
        have hne := h.2 e (by rw [heq])
        have hrf1 := h.1
        rw [heq] at hrf1
        rw [← hp]
        refine ⟨hrf1, ?_⟩
        intro hc
        exact hne (Except.error.inj hc)
      · rename_i endAddr r1 heq
        have h1 := ZeroRunner.InitializeMainEntrypoint_spec r
        rw [heq] at h1
        split at hp
        · rename_i e r2 heq2
          have h2 := ZeroRunner.RunUntilPc_spec r1 decode endAddr
          rw [heq2] at h2
          rw [← hp]
          exact ⟨h2.1.trans h1.1, h2.2⟩
        · rename_i x r2 heq2
          have h2 := ZeroRunner.RunUntilPc_spec r1 decode endAddr
          rw [heq2] at h2
          split at hp
          · have h3 := ZeroRunner.runPadding_spec r2 decode
            rw [hp] at h3
            exact ⟨h3.1.trans (h2.1.trans h1.1), h3.2⟩
          · rw [← hp]
            exact ⟨h2.1.trans h1.1, by simp⟩
    have h := hmain _ rfl
    exact ⟨h.1, fun _ => h.2⟩

/-- Witness for C5: a fresh runner over a program without entrypoints —
`Run` fails with the unknown-entrypoint error (after re-initializing), not
with the re-run error, and leaves `runFinished` false. -/
theorem claim_C5_witness :
    (({ program := { Bytecode := [], Labels := [], Entrypoints := [] }
        vm :=
          { Context := { Pc := ⟨0, 0⟩, Fp := 0, Ap := 0 }
            Memory := { Segments := [EmptySegment, EmptySegment] }
            Step := 0
            Trace := []
            config := { ProofMode := false } }
        proofmode := false
        maxsteps := 1000
        runFinished := false } : ZeroRunner).Run (fun _ => none)).1 ≠
      Except.error RunErr.reRun :=
  (claim_C5 _ (fun _ => none)).2 rfl

/-! ## Claim C10: failed entrypoint initialization is not atomic -/

/-- The raw value stored at an address (no growth, no inference): the
pure observation used to state what a mutation wrote. -/
def Memory.cellValue (m : Memory) (a : MemoryAddress) : MemoryValue :=
  (m.Segments.getD a.SegmentIndex EmptySegment).Data.getD a.Offset none

set_option maxHeartbeats 2000000 in
/-- Claim C10: on a runner whose execution segment is still empty, calling
`InitializeEntrypoint` with a name missing from the entrypoints map returns
the unknown-entrypoint error only *after* allocating a new segment and
writing `return_fp` and the end sentinel `(new_segment, 0)` into the
execution segment — the failed call leaves the memory changed. -/
theorem claim_C10 (r : ZeroRunner) (ps : Segment) (funcName : String)
    (retFp : MemoryValue)
    (hsegs : r.vm.Memory.Segments = [ps, EmptySegment])
    (hname : r.program.Entrypoints.lookup funcName = none) :
    (r.InitializeEntrypoint funcName [] retFp).1 =
        Except.error (RunErr.unknownEntrypoint funcName) ∧
      ((r.InitializeEntrypoint funcName [] retFp).2).vm.Memory.Segments.length =
        r.vm.Memory.Segments.length + 1 ∧
      ((r.InitializeEntrypoint funcName [] retFp).2).vm.Memory.cellValue
          ⟨ExecutionSegment, 0⟩ = retFp ∧
      ((r.InitializeEntrypoint funcName [] retFp).2).vm.Memory.cellValue
          ⟨ExecutionSegment, 1⟩ = some (Mv.address ⟨2, 0⟩) ∧
      ((r.InitializeEntrypoint funcName [] retFp).2).vm.Memory ≠ r.vm.Memory := by
  unfold ZeroRunner.InitializeEntrypoint
  unfold Memory.AllocateEmptySegment
  rw [hsegs]
  dsimp only [writeArguments]
  rw [hname]
  refine ⟨rfl, rfl, rfl, rfl, fun hc => ?_⟩
  have hlen := congrArg (fun mm : Memory => mm.Segments.length) hc
  dsimp only at hlen
  rw [hsegs] at hlen
  have h4 : (3 : Nat) = ([ps, EmptySegment] : List Segment).length := by
    rw [← hlen]
    rfl
  simp at h4

/-- Witness for C10: a fresh two-segment runner and the missing name
"main" — the error is unknown-entrypoint and `return_fp` (here Felt 5) has
nevertheless been written at offset 0 of the execution segment. -/
theorem claim_C10_witness :
    (({ program := { Bytecode := [], Labels := [], Entrypoints := [] }
        vm :=
          { Context := { Pc := ⟨0, 0⟩, Fp := 0, Ap := 0 }
            Memory := { Segments := [EmptySegment, EmptySegment] }
            Step := 0
            Trace := []
            config := { ProofMode := false } }
        proofmode := false
        maxsteps := 1000
        runFinished := false } : ZeroRunner).InitializeEntrypoint "main" []
          (some (Mv.felt 5))).1 =
        Except.error (RunErr.unknownEntrypoint "main") ∧
      (({ program := { Bytecode := [], Labels := [], Entrypoints := [] }
          vm :=
            { Context := { Pc := ⟨0, 0⟩, Fp := 0, Ap := 0 }
              Memory := { Segments := [EmptySegment, EmptySegment] }
              Step := 0
              Trace := []
              config := { ProofMode := false } }
          proofmode := false
          maxsteps := 1000
          runFinished := false } : ZeroRunner).InitializeEntrypoint "main" []
            (some (Mv.felt 5))).2.vm.Memory.cellValue ⟨ExecutionSegment, 0⟩ =
        some (Mv.felt 5) := by
  have h := claim_C10
    { program := { Bytecode := [], Labels := [], Entrypoints := [] }
      vm :=
        { Context := { Pc := ⟨0, 0⟩, Fp := 0, Ap := 0 }
          Memory := { Segments := [EmptySegment, EmptySegment] }
          Step := 0
          Trace := []
          config := { ProofMode := false } }
      proofmode := false
      maxsteps := 1000
      runFinished := false } EmptySegment "main" (some (Mv.felt 5)) rfl rfl
  exact ⟨h.1, h.2.2.1⟩

/-! ## Memory-level observation lemmas (for claim C3) -/

/-- `Segment.Peek` returns the raw cell value. -/
theorem Segment.Peek_fst (s : Segment) (o : Nat) :
    (s.Peek o).1 = s.Data.getD o none := by
  unfold Segment.Peek
  dsimp only
  split
  · split
    · dsimp only
      rw [Segment.IncreaseSegmentSize_getD]
    · rw [Segment.IncreaseSegmentSize_getD]
  · split
    · dsimp only
    · rfl

/-- `Segment.Peek` never changes any stored cell value. -/
theorem Segment.Peek_Data_getD (s : Segment) (o i : Nat) :
    ((s.Peek o).2).Data.getD i none = s.Data.getD i none := by
  unfold Segment.Peek
  dsimp only
  split
  · split
    · dsimp only
      rw [Segment.IncreaseSegmentSize_getD]
    · rw [Segment.IncreaseSegmentSize_getD]
  · split
    · dsimp only
    · rfl

/-- A segment write into an unknown cell succeeds, stores the value and
preserves every other cell. -/
theorem Segment.Write_fresh (s : Segment) (o : Nat) (w : MemoryValue)
    (hc : s.Data.getD o none = none) :
    (s.Write o w).1 = Except.ok () ∧
      ((s.Write o w).2).Data.getD o none = w ∧
      ∀ i, i ≠ o → ((s.Write o w).2).Data.getD i none = s.Data.getD i none := by
  have hcond : ¬((s.Data.getD o none).Known ∧ s.Data.getD o none ≠ w) := by
    rw [hc]
    intro hh
    exact Bool.noConfusion hh.1
  rw [Segment.Write_eq, if_neg hcond]
  have hglen : o <
      ((if o ≥ s.RealLen then s.IncreaseSegmentSize (o + 1) else s).Data).length := by
    split
    · have := Segment.IncreaseSegmentSize_length s (o + 1)
      omega
    · rename_i hnr
      unfold Segment.RealLen at hnr
      omega
  refine ⟨rfl, ?_, ?_⟩
  · dsimp only
    rw [List.getD_eq_getElem?_getD, List.getElem?_set_self hglen]
    rfl
  · intro i hi
    dsimp only
    rw [List.getD_eq_getElem?_getD, List.getElem?_set_ne (fun hh => hi hh.symm),
      ← List.getD_eq_getElem?_getD]
    have hg := Segment.IncreaseSegmentSize_getD s (o + 1) i
    split
    · rw [hg]
    · rfl

/-- The segment list after `List.set` observed through `getD`. -/
theorem segments_set_getD (l : List Segment) (j : Nat) (s' : Segment) (k : Nat)
    (hj : j < l.length) :
    (l.set j s').getD k EmptySegment =
      if k = j then s' else l.getD k EmptySegment := by
  rw [List.getD_eq_getElem?_getD, List.getElem?_set]
  split
  · rename_i he
    subst he
    simp only [if_pos rfl]
    rfl
  · rename_i he
    rw [if_neg (fun hh => he hh.symm), ← List.getD_eq_getElem?_getD]

/-- `Memory.PeekFromAddress` on an allocated segment: the peeked value is
the raw cell, every cell value is preserved, and the segment count is
unchanged. -/
theorem Memory.Peek_cell (m : Memory) (a : MemoryAddress)
    (h : a.SegmentIndex < m.Segments.length) :
    (m.PeekFromAddress a).1 = Except.ok (m.cellValue a) ∧
      (∀ b, ((m.PeekFromAddress a).2).cellValue b = m.cellValue b) ∧
      ((m.PeekFromAddress a).2).Segments.length = m.Segments.length := by
  unfold Memory.PeekFromAddress Memory.Peek
  rw [if_neg (by omega)]
  dsimp only
  refine ⟨?_, ?_, ?_⟩
  · rw [Segment.Peek_fst]
    rfl
  · intro b
    unfold Memory.cellValue
    dsimp only
    rw [segments_set_getD _ _ _ _ h]
    split
    · rename_i he
      rw [Segment.Peek_Data_getD, he]
    · rfl
  · dsimp only
    rw [List.length_set]

/-- `Memory.WriteToAddress` into an allocated segment's unknown cell:
succeeds, stores the value at the target address, preserves every other
cell and keeps the segment count. -/
theorem Memory.Write_fresh_cell (m : Memory) (u : MemoryAddress) (w : MemoryValue)
    (h : u.SegmentIndex < m.Segments.length) (hc : m.cellValue u = none) :
    (m.WriteToAddress u w).1 = Except.ok () ∧
      ((m.WriteToAddress u w).2).cellValue u = w ∧
      (∀ b, b ≠ u → ((m.WriteToAddress u w).2).cellValue b = m.cellValue b) ∧
      ((m.WriteToAddress u w).2).Segments.length = m.Segments.length := by
  unfold Memory.WriteToAddress Memory.Write
  rw [if_neg (by omega)]
  have hw := Segment.Write_fresh (m.Segments.getD u.SegmentIndex EmptySegment)
    u.Offset w hc
  dsimp only
  refine ⟨hw.1, ?_, ?_, ?_⟩
  · unfold Memory.cellValue
    dsimp only
    rw [segments_set_getD _ _ _ _ h, if_pos rfl]
    exact hw.2.1
  · intro b hb
    unfold Memory.cellValue
    dsimp only
    rw [segments_set_getD _ _ _ _ h]
    split
    · rename_i he
      rw [hw.2.2 b.Offset (fun hoff => hb (by cases b; cases u; simp_all)), he]
    · rfl
  · dsimp only
    rw [List.length_set]

/-- Pair form of `Memory.Peek_cell`, used to reduce the `match` in
`inferOperand`. -/
theorem Memory.PeekFromAddress_pair (m : Memory) (a : MemoryAddress)
    (h : a.SegmentIndex < m.Segments.length) :
    m.PeekFromAddress a =
      (Except.ok (m.cellValue a), (m.PeekFromAddress a).2) :=
  calc m.PeekFromAddress a
      = ((m.PeekFromAddress a).1, (m.PeekFromAddress a).2) := rfl
    _ = (Except.ok (m.cellValue a), (m.PeekFromAddress a).2) := by
        rw [(Memory.Peek_cell m a h).1]

/-- Pair form of `Memory.Write_fresh_cell`. -/
theorem Memory.WriteToAddress_pair (m : Memory) (u : MemoryAddress)
    (w : MemoryValue) (h : u.SegmentIndex < m.Segments.length)
    (hc : m.cellValue u = none) :
    m.WriteToAddress u w = (Except.ok (), (m.WriteToAddress u w).2) :=
  calc m.WriteToAddress u w
      = ((m.WriteToAddress u w).1, (m.WriteToAddress u w).2) := rfl
    _ = (Except.ok (), (m.WriteToAddress u w).2) := by
        rw [(Memory.Write_fresh_cell m u w h hc).1]

/-- When the known operand is a Felt, the Add-inferred operand `dst − known`
carries dst's tag, and adding it back to the known operand returns dst
(for an address dst, provided its offset is a valid `uint64`). -/
theorem Sub_missing_spec (dv kv missing : Mv) (k : Felt) (hk : kv = Mv.felt k)
    (hmiss : MemoryValue.Sub (some dv) (some kv) = Except.ok (some missing)) :
    (MemoryValue.IsAddress (some missing) = MemoryValue.IsAddress (some dv)) ∧
      ((∀ a : MemoryAddress, dv = Mv.address a → a.Offset < U64) →
        MemoryValue.Add (some kv) (some missing) = Except.ok (some dv)) := by
  subst hk
  cases dv with
  | felt d =>
      simp only [MemoryValue.Sub] at hmiss
      have hm : Mv.felt (d - k) = missing := Option.some.inj (Except.ok.inj hmiss)
      subst hm
      refine ⟨rfl, fun _ => ?_⟩
      simp only [MemoryValue.Add]
      rw [show k + (d - k) = d from by ring]
  | address a =>
      simp only [MemoryValue.Sub, feltToU64] at hmiss
      by_cases hku : k.val < U64
      · rw [if_pos hku] at hmiss
        have hm : Mv.address ⟨a.SegmentIndex, (a.Offset + U64 - ZMod.val k) % U64⟩ = missing :=
          Option.some.inj (Except.ok.inj hmiss)
        subst hm
        constructor
        · rfl
        · intro hAoff
          have ha := hAoff a rfl
          simp only [MemoryValue.Add, MemoryAddress.AddFelt, feltToU64]
          rw [if_pos hku]
          have hoff : ((a.Offset + U64 - ZMod.val k) % U64 + ZMod.val k) % U64 = a.Offset := by
            unfold U64 at *
            omega
          show Except.ok (some (Mv.address ⟨a.SegmentIndex,
            ((a.Offset + U64 - ZMod.val k) % U64 + ZMod.val k) % U64⟩)) =
              Except.ok (some (Mv.address a))
          rw [hoff]
      · rw [if_neg hku] at hmiss
        exact Except.noConfusion hmiss

/-- The Mul-inferred operand `dst ÷ known` is always a Felt, and multiplying
it by an invertible known operand returns dst. -/
theorem Div_missing_spec (dv kv missing : Mv)
    (hmiss : MemoryValue.Div (some dv) (some kv) = Except.ok (some missing)) :
    (∃ q : Felt, missing = Mv.felt q) ∧
      (∀ k : Felt, kv = Mv.felt k → IsUnit k →
        MemoryValue.Mul (some kv) (some missing) = Except.ok (some dv)) := by
  cases dv with
  | address a => cases kv <;> exact Except.noConfusion hmiss
  | felt d =>
      cases kv with
      | address b => exact Except.noConfusion hmiss
      | felt k0 =>
          simp only [MemoryValue.Div] at hmiss
          by_cases hz : k0 = 0
          · rw [if_pos hz] at hmiss
            exact Except.noConfusion hmiss
          · rw [if_neg hz] at hmiss
            have hm : Mv.felt (d * k0⁻¹) = missing :=
              Option.some.inj (Except.ok.inj hmiss)
            subst hm
            refine ⟨⟨d * k0⁻¹, rfl⟩, ?_⟩
            intro k hk hunit
            have hk0 : k0 = k := Mv.felt.inj hk
            subst hk0
            simp only [MemoryValue.Mul]
            have hprod : k0 * (d * k0⁻¹) = d := by
              rw [mul_comm d, ← mul_assoc, ZMod.mul_inv_of_unit k0 hunit, one_mul]
            rw [hprod]

/-- Claim C3 (amended): for an `AssertEq` step with Add/Mul res logic, a
known dst and exactly one unknown operand, `inferOperand` computes the
missing operand (`dst − known` for Add, `dst ÷ known` for Mul — assumed to
succeed, which excludes a Felt−Address subtraction, an oversized felt
against an address dst, and a zero divisor), writes it to the unknown
operand's address, preserves every other cell and returns dst as res.  For
Add with a Felt known operand the inferred value carries dst's tag and
satisfies `known + missing = dst`; for Mul it is a Felt and satisfies
`known · missing = dst` whenever the known operand is invertible. -/
theorem claim_C3 (vm : VirtualMachine) (i : Instruction)
    (dstAddr op0Addr op1Addr u : MemoryAddress) (dv kv missing : Mv)
    (hop : i.Opcode = Opcode.AssertEq)
    (hres : i.Res = ResLogic.AddOperands ∨ i.Res = ResLogic.MulOperands)
    (h0 : op0Addr.SegmentIndex < vm.Memory.Segments.length)
    (h1 : op1Addr.SegmentIndex < vm.Memory.Segments.length)
    (hd : dstAddr.SegmentIndex < vm.Memory.Segments.length)
    (hdst : vm.Memory.cellValue dstAddr = some dv)
    (hone : (vm.Memory.cellValue op0Addr = some kv ∧
              vm.Memory.cellValue op1Addr = none ∧ u = op1Addr) ∨
            (vm.Memory.cellValue op0Addr = none ∧
              vm.Memory.cellValue op1Addr = some kv ∧ u = op0Addr))
    (hmiss : (if i.Res = ResLogic.AddOperands
              then MemoryValue.Sub (some dv) (some kv)
              else MemoryValue.Div (some dv) (some kv)) = Except.ok (some missing)) :
    (vm.inferOperand i dstAddr op0Addr op1Addr).1 = Except.ok (some dv) ∧
      ((vm.inferOperand i dstAddr op0Addr op1Addr).2).cellValue u = some missing ∧
      (∀ b, b ≠ u →
        ((vm.inferOperand i dstAddr op0Addr op1Addr).2).cellValue b =
          vm.Memory.cellValue b) ∧
      (i.Res = ResLogic.AddOperands → ∀ k : Felt, kv = Mv.felt k →
        MemoryValue.IsAddress (some missing) = MemoryValue.IsAddress (some dv) ∧
        ((∀ a : MemoryAddress, dv = Mv.address a → a.Offset < U64) →
          MemoryValue.Add (some kv) (some missing) = Except.ok (some dv))) ∧
      (i.Res = ResLogic.MulOperands →
        (∃ q : Felt, missing = Mv.felt q) ∧
        ∀ k : Felt, kv = Mv.felt k → IsUnit k →
          MemoryValue.Mul (some kv) (some missing) = Except.ok (some dv)) := by
  have hArith1 : i.Res = ResLogic.AddOperands → ∀ k : Felt, kv = Mv.felt k →
      MemoryValue.IsAddress (some missing) = MemoryValue.IsAddress (some dv) ∧
      ((∀ a : MemoryAddress, dv = Mv.address a → a.Offset < U64) →
        MemoryValue.Add (some kv) (some missing) = Except.ok (some dv)) := by
    intro hr k hk
    rw [if_pos hr] at hmiss
    exact Sub_missing_spec dv kv missing k hk hmiss
  have hArith2 : i.Res = ResLogic.MulOperands →
      (∃ q : Felt, missing = Mv.felt q) ∧
      ∀ k : Felt, kv = Mv.felt k → IsUnit k →
        MemoryValue.Mul (some kv) (some missing) = Except.ok (some dv) := by
    intro hr
    rw [hr] at hmiss
    rw [if_neg (by decide)] at hmiss
    exact Div_missing_spec dv kv missing hmiss
  have hcond0 : ¬(i.Opcode ≠ Opcode.AssertEq ∨
      (i.Res ≠ ResLogic.AddOperands ∧ i.Res ≠ ResLogic.MulOperands)) := by
    rw [hop]
    rcases hres with h | h <;> simp [h]
  suffices hM : (vm.inferOperand i dstAddr op0Addr op1Addr).1 = Except.ok (some dv) ∧
      ((vm.inferOperand i dstAddr op0Addr op1Addr).2).cellValue u = some missing ∧
      ∀ b, b ≠ u →
        ((vm.inferOperand i dstAddr op0Addr op1Addr).2).cellValue b =
          vm.Memory.cellValue b by
    exact ⟨hM.1, hM.2.1, hM.2.2, hArith1, hArith2⟩
  rcases hone with ⟨hk0, hk1, hu⟩ | ⟨hk0, hk1, hu⟩ <;> subst hu
  · -- op0 known, op1 unknown: the write goes to op1's address (u)
    have hp0 := Memory.Peek_cell vm.Memory op0Addr h0
    unfold VirtualMachine.inferOperand
    rw [if_neg hcond0]
    rw [Memory.PeekFromAddress_pair vm.Memory op0Addr h0]
    set M1 := (vm.Memory.PeekFromAddress op0Addr).2 with hM1
    dsimp only
    have h1' : u.SegmentIndex < M1.Segments.length := by
      rw [hp0.2.2]
      exact h1
    have hp1 := Memory.Peek_cell M1 u h1'
    rw [Memory.PeekFromAddress_pair M1 u h1']
    set M2 := (M1.PeekFromAddress u).2 with hM2
    dsimp only
    rw [hk0, hp0.2.1 u, hk1]
    have hd' : dstAddr.SegmentIndex < M2.Segments.length := by
      rw [hp1.2.2, hp0.2.2]
      exact hd
    have hp2 := Memory.Peek_cell M2 dstAddr hd'
    rw [Memory.PeekFromAddress_pair M2 dstAddr hd']
    set M3 := (M2.PeekFromAddress dstAddr).2 with hM3
    dsimp only
    rw [hp1.2.1 dstAddr, hp0.2.1 dstAddr, hdst]
    simp only [MemoryValue.Known, Option.isSome_some, Option.isSome_none,
      Bool.false_eq_true, and_true, true_and, and_false, false_and,
      eq_self_iff_true, not_true, not_false_iff, if_true, if_false,
      ite_true, ite_false]
    rw [hmiss]
    try dsimp only
    have h1'' : u.SegmentIndex < M3.Segments.length := by
      rw [hp2.2.2, hp1.2.2, hp0.2.2]
      exact h1
    have hc3 : M3.cellValue u = none := by
      rw [hp2.2.1, hp1.2.1, hp0.2.1]
      exact hk1
    have hw := Memory.Write_fresh_cell M3 u (some missing) h1'' hc3
    rw [Memory.WriteToAddress_pair M3 u (some missing) h1'' hc3]
    dsimp only
    refine ⟨rfl, hw.2.1, ?_⟩
    intro b hb
    rw [hw.2.2.1 b hb, hp2.2.1 b, hp1.2.1 b, hp0.2.1 b]
  · -- op0 unknown, op1 known: the write goes to op0's address (u)
    have hp0 := Memory.Peek_cell vm.Memory u h0
    unfold VirtualMachine.inferOperand
    rw [if_neg hcond0]
    rw [Memory.PeekFromAddress_pair vm.Memory u h0]
    set M1 := (vm.Memory.PeekFromAddress u).2 with hM1
    dsimp only
    have h1' : op1Addr.SegmentIndex < M1.Segments.length := by
      rw [hp0.2.2]
      exact h1
    have hp1 := Memory.Peek_cell M1 op1Addr h1'
    rw [Memory.PeekFromAddress_pair M1 op1Addr h1']
    set M2 := (M1.PeekFromAddress op1Addr).2 with hM2
    dsimp only
    rw [hk0, hp0.2.1 op1Addr, hk1]
    have hd' : dstAddr.SegmentIndex < M2.Segments.length := by
      rw [hp1.2.2, hp0.2.2]
      exact hd
    have hp2 := Memory.Peek_cell M2 dstAddr hd'
    rw [Memory.PeekFromAddress_pair M2 dstAddr hd']
    set M3 := (M2.PeekFromAddress dstAddr).2 with hM3
    dsimp only
    rw [hp1.2.1 dstAddr, hp0.2.1 dstAddr, hdst]
    simp only [MemoryValue.Known, Option.isSome_some, Option.isSome_none,
      Bool.false_eq_true, and_true, true_and, and_false, false_and,
      eq_self_iff_true, not_true, not_false_iff, if_true, if_false,
      ite_true, ite_false]
    rw [hmiss]
    try dsimp only
    have h0'' : u.SegmentIndex < M3.Segments.length := by
      rw [hp2.2.2, hp1.2.2, hp0.2.2]
      exact h0
    have hc3 : M3.cellValue u = none := by
      rw [hp2.2.1, hp1.2.1, hp0.2.1]
      exact hk0
    have hw := Memory.Write_fresh_cell M3 u (some missing) h0'' hc3
    rw [Memory.WriteToAddress_pair M3 u (some missing) h0'' hc3]
    dsimp only
    refine ⟨rfl, hw.2.1, ?_⟩
    intro b hb
    rw [hw.2.2.1 b hb, hp2.2.1 b, hp1.2.1 b, hp0.2.1 b]

/-- Counterexample for C3 as stated: `AssertEq`/`MulOperands` with dst
known = 10, op0 known = 0 and op1 unknown.  The claim demands the step
compute a missing operand with `op0 · op1 = dst` and return res — but no
such operand exists (`0 · x ≠ 10`) and the code fails with the
division-by-zero error instead. -/
theorem claim_C3_counterexample :
    (({ Context := { Pc := ⟨0, 0⟩, Fp := 0, Ap := 0 }
        Memory :=
          { Segments :=
              [{ Data := [some (Mv.felt 10), some (Mv.felt 0), none]
                 LastIndex := 2
                 Cap := 3
                 BuiltinRunner := BuiltinKind.NoBuiltin }] }
        Step := 0
        Trace := []
        config := { ProofMode := false } } : VirtualMachine).inferOperand
          ⟨0, 0, 0, Register.Ap, Register.Ap, Op1Src.ApPlusOffOp1,
            ResLogic.MulOperands, PcUpdate.NextInstr, ApUpdate.SameAp,
            Opcode.AssertEq⟩
          ⟨0, 0⟩ ⟨0, 1⟩ ⟨0, 2⟩).1 = Except.error VmErr.divisionByZero := by
  decide

/-- Witness for C3 at the spec's concrete instance: `AssertEq`/`AddOperands`
with dst known = 10, op1 known = 7, op0 unknown — op0 is written as 3 and
res is dst = 10. -/
theorem claim_C3_witness :
    (({ Context := { Pc := ⟨0, 0⟩, Fp := 0, Ap := 0 }
        Memory :=
          { Segments :=
              [{ Data := [some (Mv.felt 10), none, some (Mv.felt 7)]
                 LastIndex := 2
                 Cap := 3
                 BuiltinRunner := BuiltinKind.NoBuiltin }] }
        Step := 0
        Trace := []
        config := { ProofMode := false } } : VirtualMachine).inferOperand
          ⟨0, 0, 0, Register.Ap, Register.Ap, Op1Src.ApPlusOffOp1,
            ResLogic.AddOperands, PcUpdate.NextInstr, ApUpdate.SameAp,
            Opcode.AssertEq⟩
          ⟨0, 0⟩ ⟨0, 1⟩ ⟨0, 2⟩).1 = Except.ok (some (Mv.felt 10)) ∧
      ((({ Context := { Pc := ⟨0, 0⟩, Fp := 0, Ap := 0 }
           Memory :=
             { Segments :=
                 [{ Data := [some (Mv.felt 10), none, some (Mv.felt 7)]
                    LastIndex := 2
                    Cap := 3
                    BuiltinRunner := BuiltinKind.NoBuiltin }] }
           Step := 0
           Trace := []
           config := { ProofMode := false } } : VirtualMachine).inferOperand
             ⟨0, 0, 0, Register.Ap, Register.Ap, Op1Src.ApPlusOffOp1,
               ResLogic.AddOperands, PcUpdate.NextInstr, ApUpdate.SameAp,
               Opcode.AssertEq⟩
             ⟨0, 0⟩ ⟨0, 1⟩ ⟨0, 2⟩).2).cellValue ⟨0, 1⟩ =
        some (Mv.felt 3) := by
  have h := claim_C3
    { Context := { Pc := ⟨0, 0⟩, Fp := 0, Ap := 0 }
      Memory :=
        { Segments :=
            [{ Data := [some (Mv.felt 10), none, some (Mv.felt 7)]
               LastIndex := 2
               Cap := 3
               BuiltinRunner := BuiltinKind.NoBuiltin }] }
      Step := 0
      Trace := []
      config := { ProofMode := false } }
    ⟨0, 0, 0, Register.Ap, Register.Ap, Op1Src.ApPlusOffOp1,
      ResLogic.AddOperands, PcUpdate.NextInstr, ApUpdate.SameAp,
      Opcode.AssertEq⟩
    ⟨0, 0⟩ ⟨0, 1⟩ ⟨0, 2⟩ ⟨0, 1⟩ (Mv.felt 10) (Mv.felt 7) (Mv.felt 3)
    rfl (Or.inl rfl) (by decide) (by decide) (by decide) (by decide)
    (Or.inr ⟨by decide, by decide, rfl⟩) (by decide)
  exact ⟨h.1, h.2.1⟩

end CairoVM
